import Mathlib

/-!
Shallow embedding of the devlaunch worktree subsystem
(`src/devlaunch/worktree/`): branch-name sanitization, worktree path
derivation, workspace-id generation, the branch-existence oracle, the
metadata store, and the repository/worktree managers, together with
theorems about the properties claimed in the specification.

Conventions used throughout:
* Filesystem paths are modelled as lists of path segments
  (`List String`); `pathlib`'s `/` operator becomes list append.
* Python strings are sequences of Unicode code points, which matches
  Lean's `String` as a list of `Char`.
* Timestamps (`datetime`) are modelled as integer seconds; a
  `timedelta(days=d)` is `d * 86400` seconds, matching naive-datetime
  arithmetic.
* Subprocess calls are modelled by an environment record describing
  the outcome git would produce; counters record how many times each
  mutating subprocess was invoked.
-/

namespace Devlaunch

/-! ## Branch-name sanitization (`worktree_manager.sanitize_branch_name`) -/

/-- The character class `[a-zA-Z0-9\-_.]` of the `re.sub` in
`sanitize_branch_name`. -/
def isAllowedChar (c : Char) : Bool :=
  ('a' ≤ c && c ≤ 'z') || ('A' ≤ c && c ≤ 'Z') || ('0' ≤ c && c ≤ '9') ||
    c = '-' || c = '_' || c = '.'

/-- Characters removed by Python's `str.strip(".-")`. -/
def isStripChar (c : Char) : Bool :=
  c = '.' || c = '-'

/-- Python's `s.strip(".-")`: remove the characters `.` and `-` from both
ends of the string (here: of the character list). -/
def stripChars (l : List Char) : List Char :=
  (((l.dropWhile isStripChar).reverse.dropWhile isStripChar)).reverse

/-- `worktree_manager.sanitize_branch_name`: replace `/` with `-`, replace
every character outside `[a-zA-Z0-9\-_.]` with `_`, then strip leading and
trailing `.` and `-`. -/
def sanitize_branch_name (branch : String) : String :=
  let step1 := branch.data.map (fun c => if c = '/' then '-' else c)
  let step2 := step1.map (fun c => if isAllowedChar c then c else '_')
  String.mk (stripChars step2)

/-! ## Path derivation (`RepositoryManager.get_repo_path`,
`WorktreeManager.get_worktree_path`) -/

/-- `RepositoryManager.get_repo_path`: `<repos_dir>/<owner>/<repo>`. -/
def get_repo_path (reposDir : List String) (owner repo : String) : List String :=
  reposDir ++ [owner, repo]

/-- `WorktreeManager.get_worktree_path`:
`<repo_path>/.worktrees/<sanitized branch>`. -/
def get_worktree_path (reposDir : List String) (owner repo branch : String) :
    List String :=
  get_repo_path reposDir owner repo ++ [".worktrees", sanitize_branch_name branch]

/-! ## Relative-path rewriting (`WorktreeManager._fix_worktree_paths`)

The source builds POSIX relative-path strings with f-strings
(`f"../../worktrees/{worktree_name}"` and so on); here each such string
is represented by its list of `/`-separated segments. -/

/-- Worktree working directory `<base>/.worktrees/<branch segment>`
(`worktree_path` in the source, whose basename is the sanitized branch). -/
def worktreeDir (base : List String) (branchSeg : String) : List String :=
  base ++ [".worktrees", branchSeg]

/-- Bare repo: `rel_gitdir = "../../worktrees/{worktree_name}"`. -/
def relGitdirBare (name : String) : List String :=
  ["..", "..", "worktrees", name]

/-- Bare repo: metadata directory `<base>/worktrees/<name>`. -/
def metadataDirBare (base : List String) (name : String) : List String :=
  base ++ ["worktrees", name]

/-- Bare repo: `rel_worktree = "../../.worktrees/{worktree_path.name}"`. -/
def relWorktreeBare (branchSeg : String) : List String :=
  ["..", "..", ".worktrees", branchSeg]

/-- Non-bare repo: `rel_gitdir = "../../.git/worktrees/{worktree_name}"`. -/
def relGitdirNonBare (name : String) : List String :=
  ["..", "..", ".git", "worktrees", name]

/-- Non-bare repo: metadata directory `<base>/.git/worktrees/<name>`. -/
def metadataDirNonBare (base : List String) (name : String) : List String :=
  base ++ [".git", "worktrees", name]

/-- Non-bare repo: `rel_worktree = "../../../.worktrees/{worktree_path.name}"`. -/
def relWorktreeNonBare (branchSeg : String) : List String :=
  ["..", "..", "..", ".worktrees", branchSeg]

/-- POSIX resolution of one relative segment against an accumulated
absolute path: `..` pops a directory, `.` is a no-op, anything else
descends. -/
def resolveSeg (acc : List String) (seg : String) : List String :=
  if seg = ".." then acc.dropLast
  else if seg = "." then acc
  else acc ++ [seg]

/-- Resolve a relative path (as segments) against a base directory. -/
def resolvePath (base rel : List String) : List String :=
  rel.foldl resolveSeg base

/-! ## Workspace-id generation (`WorktreeManager._generate_workspace_id`) -/

/-- `WorktreeManager._generate_workspace_id`: `owner-repo-branch`, with the
(sanitized) branch truncated when `0 < 50 - len(base) - 1 < len(branch)`. -/
def generate_workspace_id (owner repo branch : String) : String :=
  let sanitized := sanitize_branch_name branch
  let base := owner ++ "-" ++ repo
  let maxLen : Int := 50
  let available : Int := maxLen - base.length - 1
  let sanitized :=
    if 0 < available ∧ available < sanitized.length then
      String.mk (sanitized.data.take available.toNat)
    else sanitized
  base ++ "-" ++ sanitized

/-! ## Branch existence oracle (`BranchManager.ensure_branch_exists`)

The mutating git calls that `ensure_branch_exists` can make are recorded
as an action trace; `localExists` / `remoteExists` are the results of the
two existence probes at the top of the method. -/

inductive BranchAction where
  | createLocal (startPoint : String)
  | push
  | track
  deriving DecidableEq, Repr

/-- Action trace of `BranchManager.ensure_branch_exists`, following its
control flow: (local∧remote) no-op; (¬local∧remote) create tracking
branch then track; otherwise create the branch if locally absent, push
if remotely absent and `create_remote`, then track. -/
def ensureBranchActions (branch remote : String)
    (localExists remoteExists createRemote : Bool) : List BranchAction :=
  if localExists && remoteExists then []
  else if !localExists && remoteExists then
    [BranchAction.createLocal (remote ++ "/" ++ branch), BranchAction.track]
  else
    (if !localExists then [BranchAction.createLocal "HEAD"] else []) ++
    (if !remoteExists && createRemote then [BranchAction.push] else []) ++
    [BranchAction.track]

/-! ## `BranchManager.remote_branch_exists` -/

/-- Outcome of the `git ls-remote --heads <remote> <branch>` subprocess:
it can exit 0 with some stdout, exit non-zero (raising
`CalledProcessError` under `check=True`), or fail to launch at all
(raising `OSError` / `FileNotFoundError`). -/
inductive SubprocessOutcome where
  | success (stdout : String)
  | nonzeroExit
  | launchFailure
  deriving DecidableEq, Repr

/-- `BranchManager.remote_branch_exists`: returns
`bool(result.stdout.strip())` on success; the `except` clause catches
only `subprocess.CalledProcessError`, so a non-zero exit yields `False`
while a failure to launch the executable propagates as an exception
(modelled as `.error ()`). -/
def remote_branch_exists (outcome : SubprocessOutcome) : Except Unit Bool :=
  match outcome with
  | .success out => .ok (out.trim != "")
  | .nonzeroExit => .ok false
  | .launchFailure => .error ()

/-! ## Data model (`models.py`) -/

/-- `models.BaseRepository`. -/
structure BaseRepository where
  owner : String
  repo : String
  remote_url : String
  local_path : List String
  default_branch : String := "main"
  last_fetched : Option Int := none
  worktrees : List String := []
  deriving DecidableEq, Repr

/-- `models.WorktreeInfo`. -/
structure WorktreeInfo where
  owner : String
  repo : String
  branch : String
  local_path : List String
  workspace_id : String
  created_at : Int
  last_used : Int
  devpod_workspace_id : Option String := none
  deriving DecidableEq, Repr

/-! ## Metadata store (`storage.py`)

A Python `dict` is modelled as an association list with unique keys:
lookup takes the first matching key, insertion updates in place or
appends, deletion removes the key. -/

def dictGet (m : List (String × α)) (k : String) : Option α :=
  (m.find? (fun p => p.1 == k)).map (·.2)

def dictSet (m : List (String × α)) (k : String) (v : α) : List (String × α) :=
  if m.any (fun p => p.1 == k) then
    m.map (fun p => if p.1 == k then (k, v) else p)
  else m ++ [(k, v)]

def dictDel (m : List (String × α)) (k : String) : List (String × α) :=
  m.filter (fun p => p.1 != k)

/-- `storage.MetadataStorage`: the two top-level maps of the metadata
document (persistence via `save()` rewrites the whole document and does
not change the in-memory maps, so it is not modelled separately). -/
structure MetadataStorage where
  repositories : List (String × BaseRepository)
  worktrees : List (String × WorktreeInfo)
  deriving DecidableEq, Repr

/-- Repository key `f"{owner}/{repo}"`. -/
def repoKey (owner repo : String) : String := owner ++ "/" ++ repo

/-- Worktree key `f"{owner}/{repo}/{branch}"`. -/
def worktreeKey (owner repo branch : String) : String :=
  owner ++ "/" ++ repo ++ "/" ++ branch

def storage_get_repository (s : MetadataStorage) (owner repo : String) :
    Option BaseRepository :=
  dictGet s.repositories (repoKey owner repo)

def storage_add_repository (s : MetadataStorage) (r : BaseRepository) :
    MetadataStorage :=
  { s with repositories := dictSet s.repositories (repoKey r.owner r.repo) r }

def storage_remove_repository (s : MetadataStorage) (owner repo : String) :
    MetadataStorage :=
  { s with repositories := dictDel s.repositories (repoKey owner repo) }

def storage_get_worktree (s : MetadataStorage) (owner repo branch : String) :
    Option WorktreeInfo :=
  dictGet s.worktrees (worktreeKey owner repo branch)

/-- `MetadataStorage.add_worktree`: store the worktree, then append its
branch to the owning repository's `worktrees` list when that repository
is known and the branch is not yet listed. -/
def storage_add_worktree (s : MetadataStorage) (w : WorktreeInfo) :
    MetadataStorage :=
  let s1 := { s with
    worktrees := dictSet s.worktrees (worktreeKey w.owner w.repo w.branch) w }
  match storage_get_repository s1 w.owner w.repo with
  | some r =>
    if w.branch ∈ r.worktrees then s1
    else storage_add_repository s1 { r with worktrees := r.worktrees ++ [w.branch] }
  | none => s1

/-- `MetadataStorage.remove_worktree`: delete the worktree entry if
present, then remove its branch from the owning repository's
`worktrees` list (`list.remove` drops the first occurrence). -/
def storage_remove_worktree (s : MetadataStorage) (owner repo branch : String) :
    MetadataStorage :=
  if (dictGet s.worktrees (worktreeKey owner repo branch)).isSome then
    let s1 := { s with
      worktrees := dictDel s.worktrees (worktreeKey owner repo branch) }
    match storage_get_repository s1 owner repo with
    | some r =>
      if branch ∈ r.worktrees then
        storage_add_repository s1 { r with worktrees := r.worktrees.erase branch }
      else s1
    | none => s1
  else s

/-- `MetadataStorage.list_worktrees` filtered by `(owner, repo)`. -/
def storage_list_worktrees (s : MetadataStorage) (owner repo : String) :
    List WorktreeInfo :=
  (s.worktrees.map (·.2)).filter (fun w => w.owner == owner && w.repo == repo)

/-- `MetadataStorage.list_worktrees` with no filter. -/
def storage_list_all_worktrees (s : MetadataStorage) : List WorktreeInfo :=
  s.worktrees.map (·.2)

/-- The branch names having a currently-stored WorktreeInfo for
`(owner, repo)`. -/
def branchesOf (s : MetadataStorage) (owner repo : String) : List String :=
  (storage_list_worktrees s owner repo).map (·.branch)

/-- The §3 bidirectional-consistency invariant: every stored
BaseRepository's `worktrees` list equals (as a duplicate-free list) the
set of branches of the stored WorktreeInfo entries for its
`(owner, repo)`. -/
def ConsistentLists (s : MetadataStorage) : Prop :=
  ∀ p ∈ s.repositories,
    p.2.worktrees.Nodup ∧
    (∀ b ∈ p.2.worktrees, b ∈ branchesOf s p.2.owner p.2.repo) ∧
    (∀ b ∈ branchesOf s p.2.owner p.2.repo, b ∈ p.2.worktrees)

/-- A string free of the `/` key separator. -/
def noSlash (s : String) : Prop := '/' ∉ s.data

instance : DecidablePred noSlash :=
  fun s => inferInstanceAs (Decidable ('/' ∉ s.data))

/-- Structural well-formedness of the store as maintained by the code:
entries are keyed by their contents and keys are unique. -/
def WFStorage (s : MetadataStorage) : Prop :=
  (∀ p ∈ s.repositories, p.1 = repoKey p.2.owner p.2.repo) ∧
  (∀ p ∈ s.worktrees, p.1 = worktreeKey p.2.owner p.2.repo p.2.branch) ∧
  (s.repositories.map Prod.fst).Nodup ∧
  (s.worktrees.map Prod.fst).Nodup

/-- All owner and repo names in the store avoid the key separator. -/
def SlashFreeStore (s : MetadataStorage) : Prop :=
  (∀ p ∈ s.repositories, noSlash p.2.owner ∧ noSlash p.2.repo) ∧
  (∀ p ∈ s.worktrees, noSlash p.2.owner ∧ noSlash p.2.repo)

/-- The invariant package preserved by the storage mutations:
structural well-formedness, slash-free names, and the bidirectional
consistency of the `worktrees` lists. -/
def GoodStore (s : MetadataStorage) : Prop :=
  WFStorage s ∧ SlashFreeStore s ∧ ConsistentLists s

/-- A sequence element for the add/remove-worktree sequences of the
consistency claim. -/
inductive StoreOp where
  | addW (w : WorktreeInfo)
  | removeW (owner repo branch : String)
  deriving DecidableEq, Repr

def applyStoreOp (s : MetadataStorage) (op : StoreOp) : MetadataStorage :=
  match op with
  | .addW w => storage_add_worktree s w
  | .removeW o r b => storage_remove_worktree s o r b

def StoreOpSlashFree : StoreOp → Prop
  | .addW w => noSlash w.owner ∧ noSlash w.repo
  | .removeW o r _ => noSlash o ∧ noSlash r

/-! ## Filesystem and subprocess model (`repo_manager.py`,
`worktree_manager.py`)

The filesystem is the set of paths known to exist: a list of created
paths, where a path exists iff it is a prefix of some created path (so
creating a file makes all its ancestors exist, `mkdir -p` style).
Subprocess outcomes are fixed by a `GitEnv`; counters record how many
times the clone and worktree-add subprocesses were invoked. -/

/-- Outcomes of the git subprocesses invoked by the repository and
worktree managers. -/
structure GitEnv where
  cloneOk : Bool
  fetchOk : Bool
  worktreeAddOk : Bool
  localBranch : String → Bool
  remoteBranch : String → Bool
  defaultBranch : String
  fetchInterval : Int
  cloneLeftover : Bool
  addLeftover : Bool

/-- Mutable world state threaded through the managers. -/
structure Sys where
  fs : List (List String)
  storage : MetadataStorage
  now : Int
  cloneCalls : Nat
  worktreeAddCalls : Nat

def pathExists (fs : List (List String)) (p : List String) : Bool :=
  fs.any (fun q => p.isPrefixOf q)

/-- `mkdir(parents=True, exist_ok=True)` / file creation. -/
def mkPath (fs : List (List String)) (p : List String) : List (List String) :=
  p :: fs

/-- `shutil.rmtree`: remove the directory and everything below it. -/
def rmtree (fs : List (List String)) (p : List String) : List (List String) :=
  fs.filter (fun q => !(p.isPrefixOf q))

/-- The error kinds raised by the managers. -/
inductive MgrError where
  | notFound
  | cloneFailed
  | worktreeAddFailed
  deriving DecidableEq, Repr

/-- `RepositoryManager.repo_exists`: the directory exists and contains
`HEAD` (bare) or `.git` (regular). -/
def repo_exists (fs : List (List String)) (reposDir : List String)
    (owner repo : String) : Bool :=
  let p := get_repo_path reposDir owner repo
  if !pathExists fs p then false
  else pathExists fs (p ++ ["HEAD"]) || pathExists fs (p ++ [".git"])

/-- `RepositoryManager.get_repo`: stored metadata only while the backing
directory still passes `repo_exists`. -/
def get_repo (storage : MetadataStorage) (fs : List (List String))
    (reposDir : List String) (owner repo : String) : Option BaseRepository :=
  match storage_get_repository storage owner repo with
  | some b => if repo_exists fs reposDir owner repo then some b else none
  | none => none

/-- `RepositoryManager.clone_repo`: idempotent short-circuit when the
target path exists with stored metadata; otherwise run a bare clone
(on success the clone materialises `HEAD` at the repo root and the
default branch comes from `_get_default_branch`); on failure remove the
partially created directory (present when the failed clone left one)
and raise. -/
def clone_repo (env : GitEnv) (sys : Sys) (reposDir : List String)
    (owner repo url : String) : Except MgrError BaseRepository × Sys :=
  let repo_path := get_repo_path reposDir owner repo
  match (if pathExists sys.fs repo_path then
      get_repo sys.storage sys.fs reposDir owner repo else none) with
  | some existing => (Except.ok existing, sys)
  | none =>
    let fs0 := mkPath sys.fs repo_path.dropLast
    let sys0 := { sys with fs := fs0, cloneCalls := sys.cloneCalls + 1 }
    if env.cloneOk then
      let fs1 := mkPath fs0 (repo_path ++ ["HEAD"])
      let b : BaseRepository :=
        { owner := owner, repo := repo, remote_url := url,
          local_path := repo_path, default_branch := env.defaultBranch,
          last_fetched := some sys.now, worktrees := [] }
      (Except.ok b,
        { sys0 with fs := fs1, storage := storage_add_repository sys0.storage b })
    else
      let fs1 := if env.cloneLeftover then mkPath fs0 repo_path else fs0
      let fs2 := if pathExists fs1 repo_path then rmtree fs1 repo_path else fs1
      (Except.error MgrError.cloneFailed, { sys0 with fs := fs2 })

/-- The world after a failed clone: the parent directory was created,
the failed subprocess may have left a partial target directory, and the
cleanup removed the target tree if present. -/
def cloneFailState (env : GitEnv) (sys : Sys) (rd : List String)
    (o r : String) : Sys :=
  let repo_path := get_repo_path rd o r
  let fs0 := mkPath sys.fs repo_path.dropLast
  let fs1 := if env.cloneLeftover then mkPath fs0 repo_path else fs0
  let fs2 := if pathExists fs1 repo_path then rmtree fs1 repo_path else fs1
  { sys with fs := fs2, cloneCalls := sys.cloneCalls + 1 }

/-- `RepositoryManager._should_fetch`. -/
def should_fetch (env : GitEnv) (now : Int) (repo : BaseRepository) : Bool :=
  match repo.last_fetched with
  | none => true
  | some t => (now - t) > env.fetchInterval

/-- `RepositoryManager.ensure_repo` (with the default `auto_fetch=True`):
lazily fetch an existing repo (fetch failures are swallowed; the
in-place `last_fetched` update on the shared dataclass instance is the
returned record); clone otherwise. -/
def ensure_repo (env : GitEnv) (sys : Sys) (reposDir : List String)
    (owner repo url : String) : Except MgrError BaseRepository × Sys :=
  if repo_exists sys.fs reposDir owner repo then
    match get_repo sys.storage sys.fs reposDir owner repo with
    | some existing =>
      if should_fetch env sys.now existing then
        if env.fetchOk then
          let r2 := { existing with last_fetched := some sys.now }
          (Except.ok r2,
            { sys with storage := storage_add_repository sys.storage r2 })
        else (Except.ok existing, sys)
      else (Except.ok existing, sys)
    | none => clone_repo env sys reposDir owner repo url
  else clone_repo env sys reposDir owner repo url

/-- `WorktreeManager.worktree_exists`: directory and `.git` pointer
present. -/
def worktree_exists (fs : List (List String)) (reposDir : List String)
    (owner repo branch : String) : Bool :=
  let wp := get_worktree_path reposDir owner repo branch
  pathExists fs wp && pathExists fs (wp ++ [".git"])

/-- `WorktreeManager.get_worktree`: stored metadata only while the
directory still passes `worktree_exists`. -/
def get_worktree (storage : MetadataStorage) (fs : List (List String))
    (reposDir : List String) (owner repo branch : String) : Option WorktreeInfo :=
  match storage_get_worktree storage owner repo branch with
  | some w => if worktree_exists fs reposDir owner repo branch then some w else none
  | none => none

/-- Steps 2-7 of `WorktreeManager.create_worktree` (after the base repo
is resolved): idempotent short-circuit when the worktree path exists and
metadata is stored; otherwise create the parent directory and run
`git worktree add` (the three-way local/remote branch-state check
selects among three `worktree add` command forms, all modelled by the
same `worktreeAddOk` outcome; the middle case's extra `git fetch` runs
with `check=False` and does not change the modelled state). On success
the worktree directory with its `.git` pointer file exists,
`_fix_worktree_paths` rewrites file contents (tree shape unchanged; its
path arithmetic is verified separately), and the metadata is stored.
On failure the partial worktree directory is removed and the error
raised. -/
def create_worktree_body (env : GitEnv) (sys : Sys) (reposDir : List String)
    (owner repo branch : String) : Except MgrError WorktreeInfo × Sys :=
  let worktree_path := get_worktree_path reposDir owner repo branch
  match (if pathExists sys.fs worktree_path then
      get_worktree sys.storage sys.fs reposDir owner repo branch else none) with
  | some existing => (Except.ok existing, sys)
  | none =>
    let fs0 := mkPath sys.fs worktree_path.dropLast
    let sys0 := { sys with fs := fs0, worktreeAddCalls := sys.worktreeAddCalls + 1 }
    if env.worktreeAddOk then
      let fs1 := mkPath fs0 (worktree_path ++ [".git"])
      let winfo : WorktreeInfo :=
        { owner := owner, repo := repo, branch := branch,
          local_path := worktree_path,
          workspace_id := generate_workspace_id owner repo branch,
          created_at := sys0.now, last_used := sys0.now,
          devpod_workspace_id := none }
      (Except.ok winfo,
        { sys0 with fs := fs1, storage := storage_add_worktree sys0.storage winfo })
    else
      let fs1 := if env.addLeftover then mkPath fs0 worktree_path else fs0
      let fs2 := if pathExists fs1 worktree_path then rmtree fs1 worktree_path else fs1
      (Except.error MgrError.worktreeAddFailed, { sys0 with fs := fs2 })

/-- The world after a failed `git worktree add`: the parent directory
was created, the failed subprocess may have left a partial worktree
directory, and the cleanup removed the worktree tree if present. -/
def addFailState (env : GitEnv) (sys : Sys) (rd : List String)
    (o r b : String) : Sys :=
  let wp := get_worktree_path rd o r b
  let fs0 := mkPath sys.fs wp.dropLast
  let fs1 := if env.addLeftover then mkPath fs0 wp else fs0
  let fs2 := if pathExists fs1 wp then rmtree fs1 wp else fs1
  { sys with fs := fs2, worktreeAddCalls := sys.worktreeAddCalls + 1 }

/-- `WorktreeManager.create_worktree`: resolve the base repository
(stored metadata required when no remote URL is given, `ensure_repo`
otherwise), then materialise the worktree. -/
def create_worktree (env : GitEnv) (sys : Sys) (reposDir : List String)
    (owner repo branch : String) (remote_url : Option String) :
    Except MgrError WorktreeInfo × Sys :=
  match remote_url with
  | none =>
    match get_repo sys.storage sys.fs reposDir owner repo with
    | none => (Except.error MgrError.notFound, sys)
    | some _ => create_worktree_body env sys reposDir owner repo branch
  | some url =>
    let res := ensure_repo env sys reposDir owner repo url
    match res.fst with
    | Except.error e => (Except.error e, res.snd)
    | Except.ok _ => create_worktree_body env res.snd reposDir owner repo branch

/-- `WorktreeManager.remove_worktree`: metadata is removed even when the
directory is gone; otherwise `git worktree remove --force` (falling back
to `shutil.rmtree` on subprocess failure) removes the directory either
way, and the metadata is removed unconditionally at the end. -/
def wm_remove_worktree (sys : Sys) (reposDir : List String)
    (owner repo branch : String) : Sys :=
  let wp := get_worktree_path reposDir owner repo branch
  if !pathExists sys.fs wp then
    { sys with storage := storage_remove_worktree sys.storage owner repo branch }
  else
    { sys with fs := rmtree sys.fs wp, storage := storage_remove_worktree sys.storage owner repo branch }

/-- The loop of `prune_stale_worktrees` over the snapshot of all known
worktrees: each one whose `last_used` is strictly before the cutoff is
removed and collected (removal never raises in this model, matching the
source where removal failures are merely logged). -/
def pruneLoop (sys : Sys) (reposDir : List String) (cutoff : Int) :
    List WorktreeInfo → List WorktreeInfo × Sys
  | [] => ([], sys)
  | w :: rest =>
    if w.last_used < cutoff then
      let res := pruneLoop (wm_remove_worktree sys reposDir w.owner w.repo w.branch)
        reposDir cutoff rest
      (w :: res.fst, res.snd)
    else pruneLoop sys reposDir cutoff rest

/-- `WorktreeManager.prune_stale_worktrees`: default threshold 30 days;
`cutoff = now - timedelta(days=days)`; prunes every known worktree with
`last_used < cutoff`. -/
def prune_stale_worktrees (sys : Sys) (reposDir : List String)
    (days : Option Int) : List WorktreeInfo × Sys :=
  let d := days.getD 30
  pruneLoop sys reposDir (sys.now - d * 86400) (storage_list_all_worktrees sys.storage)

/-- A concrete consistent store with an owner name containing `/`:
repository `("a/b", "c")` with one worktree on branch `d`. -/
def collidingStore : MetadataStorage :=
  { repositories := [("a/b/c",
      { owner := "a/b", repo := "c", remote_url := "u", local_path := ["p"],
        default_branch := "main", last_fetched := none, worktrees := ["d"] })],
    worktrees := [("a/b/c/d",
      { owner := "a/b", repo := "c", branch := "d", local_path := ["p"],
        workspace_id := "i", created_at := 0, last_used := 0,
        devpod_workspace_id := none })] }

/-- A worktree for the distinct repository `("a", "b/c")` whose composite
key `a/b/c/d` collides with the stored one. -/
def collidingWorktree : WorktreeInfo :=
  { owner := "a", repo := "b/c", branch := "d", local_path := ["q"],
    workspace_id := "j", created_at := 0, last_used := 0,
    devpod_workspace_id := none }

/-- Concrete stale worktree (31 days idle at `now = 0`). -/
def staleWorktree : WorktreeInfo :=
  { owner := "o", repo := "r", branch := "a", local_path := ["p"],
    workspace_id := "i", created_at := 0, last_used := -2678400,
    devpod_workspace_id := none }

/-- Concrete fresh worktree (29 days idle at `now = 0`). -/
def freshWorktree : WorktreeInfo :=
  { owner := "o", repo := "r", branch := "b", local_path := ["q"],
    workspace_id := "j", created_at := 0, last_used := -2505600,
    devpod_workspace_id := none }

/-- Concrete world with the two worktrees above and clock `now = 0`. -/
def pruneSys : Sys :=
  { fs := [],
    storage := { repositories := [],
                 worktrees := [("o/r/a", staleWorktree), ("o/r/b", freshWorktree)] },
    now := 0, cloneCalls := 0, worktreeAddCalls := 0 }

/-- Subprocess environment where every git call succeeds. -/
def okEnv : GitEnv :=
  { cloneOk := true, fetchOk := true, worktreeAddOk := true,
    localBranch := fun _ => false, remoteBranch := fun _ => false,
    defaultBranch := "main", fetchInterval := 3600,
    cloneLeftover := false, addLeftover := false }

/-- Subprocess environment where clone and worktree-add fail and leave
partial directories behind. -/
def failEnv : GitEnv :=
  { cloneOk := false, fetchOk := true, worktreeAddOk := false,
    localBranch := fun _ => false, remoteBranch := fun _ => false,
    defaultBranch := "main", fetchInterval := 3600,
    cloneLeftover := true, addLeftover := true }

/-- Empty world. -/
def emptySys : Sys :=
  { fs := [], storage := { repositories := [], worktrees := [] },
    now := 0, cloneCalls := 0, worktreeAddCalls := 0 }

/-- The metadata produced by a fresh successful clone of `o/r` in
`okEnv` from `emptySys`. -/
def idemRepo : BaseRepository :=
  { owner := "o", repo := "r", remote_url := "u",
    local_path := ["repos", "o", "r"], default_branch := "main",
    last_fetched := some 0, worktrees := [] }

/-- A world where the bare repository `o/r` is already cloned and
registered. -/
def repoReadySys : Sys :=
  { fs := [["repos", "o", "r", "HEAD"]],
    storage := { repositories := [("o/r", idemRepo)], worktrees := [] },
    now := 0, cloneCalls := 0, worktreeAddCalls := 0 }

/-- The metadata produced by a fresh successful worktree creation for
branch `b` of `o/r` in `okEnv` from `repoReadySys`. -/
def idemWt : WorktreeInfo :=
  { owner := "o", repo := "r", branch := "b",
    local_path := ["repos", "o", "r", ".worktrees", "b"],
    workspace_id := "o-r-b", created_at := 0, last_used := 0,
    devpod_workspace_id := none }

/-! ## Helper lemmas -/

theorem dropWhile_head?_not (p : Char → Bool) (l : List Char) (c : Char)
    (h : (l.dropWhile p).head? = some c) : p c = false := by
  induction l with
  | nil => simp [List.dropWhile] at h
  | cons a t ih =>
    rw [List.dropWhile_cons] at h
    by_cases hp : p a
    · simp [hp] at h; exact ih h
    · simp [hp] at h; subst h; simpa using hp

theorem stripChars_mem {l : List Char} {c : Char} (h : c ∈ stripChars l) :
    c ∈ l := by
  unfold stripChars at h
  rw [List.mem_reverse] at h
  have h2 := (List.dropWhile_sublist (l := (l.dropWhile isStripChar).reverse)
    isStripChar).mem h
  rw [List.mem_reverse] at h2
  exact (List.dropWhile_sublist isStripChar).mem h2

theorem stripChars_head?_not {l : List Char} {c : Char}
    (h : (stripChars l).head? = some c) : isStripChar c = false := by
  unfold stripChars at h
  rw [List.head?_reverse] at h
  set Z := l.dropWhile isStripChar with hZ
  set W := Z.reverse.dropWhile isStripChar with hW
  obtain ⟨t, ht⟩ := List.dropWhile_suffix (l := Z.reverse) isStripChar
  have hWne : W ≠ [] := by
    intro hnil
    rw [hnil] at h; simp at h
  have h1 : (t ++ W).getLast? = W.getLast? := List.getLast?_append_of_ne_nil t hWne
  rw [ht] at h1
  rw [List.getLast?_reverse] at h1
  exact dropWhile_head?_not isStripChar l c (h1.trans h)

theorem stripChars_getLast?_not {l : List Char} {c : Char}
    (h : (stripChars l).getLast? = some c) : isStripChar c = false := by
  unfold stripChars at h
  rw [List.getLast?_reverse] at h
  exact dropWhile_head?_not isStripChar _ c h

theorem sanitize_head?_not_strip {s : String} {c : Char}
    (h : (sanitize_branch_name s).data.head? = some c) : isStripChar c = false :=
  stripChars_head?_not h

/-- The sanitized name never starts with `.`, hence is neither `.` nor
`..`; needed because those segments would not be plain directory names
in path resolution. -/
theorem sanitize_ne_dots (s : String) :
    sanitize_branch_name s ≠ ".." ∧ sanitize_branch_name s ≠ "." := by
  constructor <;> intro h
  · have : (sanitize_branch_name s).data.head? = some '.' := by rw [h]; rfl
    have := sanitize_head?_not_strip this
    simp [isStripChar] at this
  · have : (sanitize_branch_name s).data.head? = some '.' := by rw [h]; rfl
    have := sanitize_head?_not_strip this
    simp [isStripChar] at this

theorem dropLast_append_pair (l : List String) (a b : String) :
    (l ++ [a, b]).dropLast = l ++ [a] := by
  rw [show l ++ [a, b] = (l ++ [a]) ++ [b] by simp]
  simp

theorem dropLast_append_single (l : List String) (a : String) :
    (l ++ [a]).dropLast = l := by simp

theorem len_dash : ("-" : String).length = 1 := rfl

theorem resolve_up2 (base : List String) (a b : String) (rest : List String) :
    resolvePath (base ++ [a, b]) (".." :: ".." :: rest) = resolvePath base rest := by
  unfold resolvePath
  rw [List.foldl_cons, List.foldl_cons]
  congr 1
  show ((base ++ [a, b]).dropLast).dropLast = base
  rw [dropLast_append_pair]
  simp

theorem resolve_up3 (base : List String) (a b c : String) (rest : List String) :
    resolvePath (base ++ [a, b, c]) (".." :: ".." :: ".." :: rest) =
      resolvePath base rest := by
  unfold resolvePath
  rw [List.foldl_cons]
  show resolvePath ((base ++ [a, b, c]).dropLast) (".." :: ".." :: rest) = _
  rw [show base ++ [a, b, c] = (base ++ [a]) ++ [b, c] by simp,
    dropLast_append_pair, show (base ++ [a]) ++ [b] = base ++ [a, b] by simp,
    resolve_up2]
  rfl

theorem mem_dictSet {m : List (String × α)} {k : String} {v : α} {q : String × α} :
    q ∈ dictSet m k v ↔ (q ∈ m ∧ q.1 ≠ k) ∨ q = (k, v) := by
  unfold dictSet
  by_cases h : m.any (fun p => p.1 == k)
  · rw [if_pos h]
    rw [List.any_eq_true] at h
    obtain ⟨p0, hp0, hp0k⟩ := h
    rw [beq_iff_eq] at hp0k
    constructor
    · intro hq
      rw [List.mem_map] at hq
      obtain ⟨p, hp, hpq⟩ := hq
      by_cases hk : p.1 == k
      · right; rw [if_pos hk] at hpq; exact hpq.symm
      · left
        rw [if_neg hk] at hpq
        subst hpq
        exact ⟨hp, by simpa using hk⟩
    · intro hq
      rw [List.mem_map]
      rcases hq with ⟨hq, hqk⟩ | hq
      · exact ⟨q, hq, by rw [if_neg (by simpa using hqk)]⟩
      · exact ⟨p0, hp0, by rw [if_pos (by simpa using hp0k)]; exact hq.symm⟩
  · rw [if_neg h]
    rw [List.any_eq_true] at h
    push_neg at h
    constructor
    · intro hq
      rw [List.mem_append] at hq
      rcases hq with hq | hq
      · exact Or.inl ⟨hq, by simpa using h q hq⟩
      · exact Or.inr (by simpa using hq)
    · intro hq
      rw [List.mem_append]
      rcases hq with ⟨hq, _⟩ | hq
      · exact Or.inl hq
      · exact Or.inr (by simpa using hq)

theorem dictSet_keys_nodup {m : List (String × α)} {k : String} {v : α}
    (hnd : (m.map Prod.fst).Nodup) : ((dictSet m k v).map Prod.fst).Nodup := by
  unfold dictSet
  by_cases h : m.any (fun p => p.1 == k)
  · rw [if_pos h]
    have : (m.map (fun p => if p.1 == k then (k, v) else p)).map Prod.fst
        = m.map Prod.fst := by
      rw [List.map_map]
      apply List.map_congr_left
      intro p _
      by_cases hk : p.1 == k
      · simp only [Function.comp_apply, if_pos hk]
        exact (beq_iff_eq.mp hk).symm
      · simp only [Function.comp_apply, if_neg hk]
    rw [this]; exact hnd
  · rw [if_neg h]
    rw [List.map_append]
    rw [List.nodup_append]
    refine ⟨hnd, by simp, ?_⟩
    intro x hx
    rw [List.any_eq_true] at h
    push_neg at h
    rw [List.mem_map] at hx
    obtain ⟨p, hp, hpx⟩ := hx
    simp only [List.map_cons, List.map_nil, List.mem_singleton]
    intro hxk
    exact absurd (by rw [hxk] at hpx; simpa using hpx) (by simpa using h p hp)

theorem mem_dictDel {m : List (String × α)} {k : String} {q : String × α} :
    q ∈ dictDel m k ↔ q ∈ m ∧ q.1 ≠ k := by
  unfold dictDel
  rw [List.mem_filter]
  simp [bne_iff_ne]

theorem dictDel_keys_nodup {m : List (String × α)} {k : String}
    (hnd : (m.map Prod.fst).Nodup) : ((dictDel m k).map Prod.fst).Nodup :=
  ((List.filter_sublist m).map Prod.fst).nodup hnd

theorem dictGet_some_mem {m : List (String × α)} {k : String} {v : α}
    (h : dictGet m k = some v) : (k, v) ∈ m := by
  unfold dictGet at h
  rw [Option.map_eq_some'] at h
  obtain ⟨p, hp, hpv⟩ := h
  have hmem := List.mem_of_find?_eq_some hp
  have hpred := List.find?_some hp
  rw [beq_iff_eq] at hpred
  have : p = (k, v) := by
    cases p
    simp only [Prod.mk.injEq]
    exact ⟨hpred, hpv⟩
  rwa [this] at hmem

theorem dictGet_none_iff {m : List (String × α)} {k : String} :
    dictGet m k = none ↔ ∀ p ∈ m, p.1 ≠ k := by
  unfold dictGet
  rw [Option.map_eq_none', List.find?_eq_none]
  simp

theorem mem_eq_of_nodup_keys {m : List (String × α)}
    (hnd : (m.map Prod.fst).Nodup) {p q : String × α}
    (hp : p ∈ m) (hq : q ∈ m) (hk : p.1 = q.1) : p = q := by
  induction m with
  | nil => cases hp
  | cons a t ih =>
    rw [List.map_cons, List.nodup_cons] at hnd
    rcases List.mem_cons.mp hp with hp1 | hp1 <;>
      rcases List.mem_cons.mp hq with hq1 | hq1
    · rw [hp1, hq1]
    · subst hp1
      exact absurd (hk ▸ List.mem_map_of_mem Prod.fst hq1) hnd.1
    · subst hq1
      exact absurd (hk ▸ List.mem_map_of_mem Prod.fst hp1) hnd.1
    · exact ih hnd.2 hp1 hq1

theorem dictGet_dictSet_self (m : List (String × α)) (k : String) (v : α) :
    dictGet (dictSet m k v) k = some v := by
  unfold dictGet dictSet
  by_cases h : m.any (fun p => p.1 == k)
  · rw [if_pos h]
    induction m with
    | nil => simp at h
    | cons p t ih =>
      rw [List.map_cons, List.find?_cons]
      by_cases hp : p.1 == k
      · rw [if_pos hp]
        simp
      · rw [if_neg hp]
        have hpt : t.any (fun p => p.1 == k) := by
          rw [List.any_cons] at h
          simpa [hp] using h
        simp only [hp]
        exact ih hpt
  · rw [if_neg h]
    have hfind : m.find? (fun p => p.1 == k) = none := by
      rw [List.find?_eq_none]
      intro p hp
      rw [List.any_eq_true] at h
      push_neg at h
      simpa using h p hp
    rw [List.find?_append, hfind]
    simp

theorem append_slash_inj : ∀ {a x : List Char} {b y : List Char},
    '/' ∉ a → '/' ∉ x → a ++ '/' :: b = x ++ '/' :: y → a = x ∧ b = y := by
  intro a
  induction a with
  | nil =>
    intro x b y _ hx h
    cases x with
    | nil => simpa using h
    | cons c x' =>
      simp only [List.nil_append, List.cons_append, List.cons.injEq] at h
      exact absurd (h.1 ▸ List.mem_cons_self c x') hx
  | cons c a' ih =>
    intro x b y ha hx h
    cases x with
    | nil =>
      simp only [List.cons_append, List.nil_append, List.cons.injEq] at h
      exact absurd (h.1 ▸ List.mem_cons_self c a') ha
    | cons d x' =>
      simp only [List.cons_append, List.cons.injEq] at h
      obtain ⟨hcd, hrest⟩ := h
      have ha' : '/' ∉ a' := fun hm => ha (List.mem_cons_of_mem c hm)
      have hx' : '/' ∉ x' := fun hm => hx (List.mem_cons_of_mem d hm)
      obtain ⟨h1, h2⟩ := ih ha' hx' hrest
      exact ⟨by rw [hcd, h1], h2⟩

theorem repoKey_data (o r : String) :
    (repoKey o r).data = o.data ++ '/' :: r.data := by
  unfold repoKey
  rw [String.data_append, String.data_append]
  simp

theorem worktreeKey_data (o r b : String) :
    (worktreeKey o r b).data = o.data ++ '/' :: (r.data ++ '/' :: b.data) := by
  unfold worktreeKey
  rw [String.data_append, String.data_append, String.data_append,
    String.data_append]
  simp

theorem repoKey_inj {o1 r1 o2 r2 : String} (h1 : noSlash o1) (h2 : noSlash o2)
    (h : repoKey o1 r1 = repoKey o2 r2) : o1 = o2 ∧ r1 = r2 := by
  have hd := congrArg String.data h
  rw [repoKey_data, repoKey_data] at hd
  obtain ⟨ho, hr⟩ := append_slash_inj h1 h2 hd
  exact ⟨String.ext ho, String.ext hr⟩

theorem worktreeKey_inj {o1 r1 b1 o2 r2 b2 : String}
    (ho1 : noSlash o1) (hr1 : noSlash r1) (ho2 : noSlash o2) (hr2 : noSlash r2)
    (h : worktreeKey o1 r1 b1 = worktreeKey o2 r2 b2) :
    o1 = o2 ∧ r1 = r2 ∧ b1 = b2 := by
  have hd := congrArg String.data h
  rw [worktreeKey_data, worktreeKey_data] at hd
  obtain ⟨ho, hrest⟩ := append_slash_inj ho1 ho2 hd
  obtain ⟨hr, hb⟩ := append_slash_inj hr1 hr2 hrest
  exact ⟨String.ext ho, String.ext hr, String.ext hb⟩

/-- The two keys agree exactly when the name triples agree (for
slash-free owners and repos). -/
theorem worktreeKey_eq_iff {o1 r1 b1 o2 r2 b2 : String}
    (ho1 : noSlash o1) (hr1 : noSlash r1) (ho2 : noSlash o2) (hr2 : noSlash r2) :
    worktreeKey o1 r1 b1 = worktreeKey o2 r2 b2 ↔
      o1 = o2 ∧ r1 = r2 ∧ b1 = b2 := by
  constructor
  · exact worktreeKey_inj ho1 hr1 ho2 hr2
  · rintro ⟨h1, h2, h3⟩
    rw [h1, h2, h3]

theorem mem_branchesOf {s : MetadataStorage} {o r x : String} :
    x ∈ branchesOf s o r ↔
      ∃ p ∈ s.worktrees, p.2.owner = o ∧ p.2.repo = r ∧ p.2.branch = x := by
  unfold branchesOf storage_list_worktrees
  rw [List.mem_map]
  constructor
  · rintro ⟨w, hw, hwx⟩
    rw [List.mem_filter, List.mem_map] at hw
    obtain ⟨⟨p, hp, hpw⟩, hcond⟩ := hw
    rw [Bool.and_eq_true, beq_iff_eq, beq_iff_eq] at hcond
    exact ⟨p, hp, by rw [hpw]; exact hcond.1, by rw [hpw]; exact hcond.2,
      by rw [hpw]; exact hwx⟩
  · rintro ⟨p, hp, ho, hr, hx⟩
    refine ⟨p.2, ?_, hx⟩
    rw [List.mem_filter, List.mem_map]
    refine ⟨⟨p, hp, rfl⟩, ?_⟩
    rw [Bool.and_eq_true, beq_iff_eq, beq_iff_eq]
    exact ⟨ho, hr⟩

theorem dictDel_absent {m : List (String × α)} {k : String}
    (h : ∀ p ∈ m, p.1 ≠ k) : dictDel m k = m :=
  List.filter_eq_self.mpr (fun p hp => by simpa [bne_iff_ne] using h p hp)

theorem storage_remove_worktree_worktrees (s : MetadataStorage)
    (o r b : String) :
    (storage_remove_worktree s o r b).worktrees
      = dictDel s.worktrees (worktreeKey o r b) := by
  unfold storage_remove_worktree
  by_cases h : (dictGet s.worktrees (worktreeKey o r b)).isSome
  · rw [if_pos h]
    show (match storage_get_repository ({ s with worktrees := dictDel s.worktrees (worktreeKey o r b) }) o r with
      | some rr => if b ∈ rr.worktrees then storage_add_repository ({ s with worktrees := dictDel s.worktrees (worktreeKey o r b) }) { rr with worktrees := rr.worktrees.erase b } else ({ s with worktrees := dictDel s.worktrees (worktreeKey o r b) })
      | none => ({ s with worktrees := dictDel s.worktrees (worktreeKey o r b) })).worktrees = _
    cases storage_get_repository ({ s with worktrees := dictDel s.worktrees (worktreeKey o r b) }) o r with
    | none => rfl
    | some rr =>
      show (if b ∈ rr.worktrees then storage_add_repository ({ s with worktrees := dictDel s.worktrees (worktreeKey o r b) }) { rr with worktrees := rr.worktrees.erase b } else ({ s with worktrees := dictDel s.worktrees (worktreeKey o r b) })).worktrees = _
      split <;> rfl
  · rw [if_neg h]
    rw [Option.not_isSome_iff_eq_none] at h
    rw [dictDel_absent (dictGet_none_iff.mp h)]

theorem wm_remove_worktree_storage (sys : Sys) (rd : List String)
    (o r b : String) :
    (wm_remove_worktree sys rd o r b).storage
      = storage_remove_worktree sys.storage o r b := by
  simp only [wm_remove_worktree]
  split <;> rfl

theorem pruneLoop_fst (rd : List String) (cutoff : Int) :
    ∀ (ws : List WorktreeInfo) (sys : Sys),
      (pruneLoop sys rd cutoff ws).fst
        = ws.filter (fun w => decide (w.last_used < cutoff)) := by
  intro ws
  induction ws with
  | nil => intro sys; rfl
  | cons w rest ih =>
    intro sys
    rw [List.filter_cons]
    by_cases hw : w.last_used < cutoff
    · rw [if_pos (by simpa using hw)]
      show (pruneLoop sys rd cutoff (w :: rest)).fst = _
      unfold pruneLoop
      rw [if_pos hw]
      show w :: (pruneLoop (wm_remove_worktree sys rd w.owner w.repo w.branch) rd cutoff rest).fst = _
      rw [ih]
    · rw [if_neg (by simpa using hw)]
      show (pruneLoop sys rd cutoff (w :: rest)).fst = _
      unfold pruneLoop
      rw [if_neg hw]
      exact ih sys

theorem pruneLoop_cons (sys : Sys) (rd : List String) (cutoff : Int)
    (w : WorktreeInfo) (rest : List WorktreeInfo) :
    pruneLoop sys rd cutoff (w :: rest) =
      if w.last_used < cutoff then
        (w :: (pruneLoop (wm_remove_worktree sys rd w.owner w.repo w.branch) rd cutoff rest).fst,
         (pruneLoop (wm_remove_worktree sys rd w.owner w.repo w.branch) rd cutoff rest).snd)
      else pruneLoop sys rd cutoff rest := rfl

theorem pruneLoop_nil (sys : Sys) (rd : List String) (cutoff : Int) :
    pruneLoop sys rd cutoff [] = ([], sys) := rfl

theorem branchesOf_set_repositories (s : MetadataStorage)
    (R : List (String × BaseRepository)) (o r : String) :
    branchesOf { s with repositories := R } o r = branchesOf s o r := rfl

theorem branchesOf_set_worktrees_same {s : MetadataStorage} {w : WorktreeInfo}
    {x : String} (hwf : WFStorage s) (hsf : SlashFreeStore s)
    (hwo : noSlash w.owner) (hwr : noSlash w.repo) :
    x ∈ branchesOf ({ s with worktrees := dictSet s.worktrees (worktreeKey w.owner w.repo w.branch) w }) w.owner w.repo ↔
      x ∈ branchesOf s w.owner w.repo ∨ x = w.branch := by
  rw [mem_branchesOf, mem_branchesOf]
  constructor
  · rintro ⟨p, hp, ho, hr, hx⟩
    replace hp : p ∈ dictSet s.worktrees
        (worktreeKey w.owner w.repo w.branch) w := hp
    rw [mem_dictSet] at hp
    rcases hp with ⟨hp, _⟩ | hp
    · exact Or.inl ⟨p, hp, ho, hr, hx⟩
    · subst hp
      exact Or.inr hx.symm
  · rintro (⟨p, hp, ho, hr, hx⟩ | hx)
    · by_cases hpk : p.1 = worktreeKey w.owner w.repo w.branch
      · refine ⟨(worktreeKey w.owner w.repo w.branch, w),
          mem_dictSet.mpr (Or.inr rfl), rfl, rfl, ?_⟩
        have hkey := hwf.2.1 p hp
        rw [ho, hr] at hkey
        rw [hkey] at hpk
        obtain ⟨-, -, hb⟩ := worktreeKey_inj hwo hwr hwo hwr hpk
        rw [← hx, ← hb]
      · exact ⟨p, mem_dictSet.mpr (Or.inl ⟨hp, hpk⟩), ho, hr, hx⟩
    · exact ⟨(worktreeKey w.owner w.repo w.branch, w),
        mem_dictSet.mpr (Or.inr rfl), rfl, rfl, hx.symm⟩

theorem branchesOf_set_worktrees_other {s : MetadataStorage} {w : WorktreeInfo}
    {o r x : String} (hwf : WFStorage s) (hsf : SlashFreeStore s)
    (hwo : noSlash w.owner) (hwr : noSlash w.repo)
    (ho : noSlash o) (hr : noSlash r)
    (hne : ¬(o = w.owner ∧ r = w.repo)) :
    x ∈ branchesOf ({ s with worktrees := dictSet s.worktrees (worktreeKey w.owner w.repo w.branch) w }) o r ↔
      x ∈ branchesOf s o r := by
  rw [mem_branchesOf, mem_branchesOf]
  constructor
  · rintro ⟨p, hp, hpo, hpr, hx⟩
    replace hp : p ∈ dictSet s.worktrees
        (worktreeKey w.owner w.repo w.branch) w := hp
    rw [mem_dictSet] at hp
    rcases hp with ⟨hp, _⟩ | hp
    · exact ⟨p, hp, hpo, hpr, hx⟩
    · subst hp
      exact absurd ⟨hpo.symm, hpr.symm⟩ hne
  · rintro ⟨p, hp, hpo, hpr, hx⟩
    refine ⟨p, mem_dictSet.mpr (Or.inl ⟨hp, ?_⟩), hpo, hpr, hx⟩
    intro hpk
    have hkey := hwf.2.1 p hp
    rw [hpo, hpr] at hkey
    rw [hkey] at hpk
    obtain ⟨h1, h2, -⟩ := worktreeKey_inj ho hr hwo hwr hpk
    exact hne ⟨h1, h2⟩

theorem branchesOf_del_worktrees_same {s : MetadataStorage} {o r b x : String}
    (hwf : WFStorage s) (hsf : SlashFreeStore s)
    (ho : noSlash o) (hr : noSlash r) :
    x ∈ branchesOf
        { s with worktrees := dictDel s.worktrees (worktreeKey o r b) } o r ↔
      x ∈ branchesOf s o r ∧ x ≠ b := by
  rw [mem_branchesOf, mem_branchesOf]
  constructor
  · rintro ⟨p, hp, hpo, hpr, hx⟩
    replace hp : p ∈ dictDel s.worktrees (worktreeKey o r b) := hp
    rw [mem_dictDel] at hp
    obtain ⟨hp, hpk⟩ := hp
    refine ⟨⟨p, hp, hpo, hpr, hx⟩, ?_⟩
    intro hxb
    apply hpk
    have hkey := hwf.2.1 p hp
    rw [hpo, hpr, hx, hxb] at hkey
    exact hkey
  · rintro ⟨⟨p, hp, hpo, hpr, hx⟩, hxb⟩
    refine ⟨p, mem_dictDel.mpr ⟨hp, ?_⟩, hpo, hpr, hx⟩
    intro hpk
    have hkey := hwf.2.1 p hp
    rw [hpo, hpr, hx] at hkey
    rw [hkey] at hpk
    obtain ⟨-, -, hb⟩ := worktreeKey_inj ho hr ho hr hpk
    exact hxb hb

theorem branchesOf_del_worktrees_other {s : MetadataStorage}
    {o r b o2 r2 x : String} (hwf : WFStorage s) (hsf : SlashFreeStore s)
    (ho : noSlash o) (hr : noSlash r) (ho2 : noSlash o2) (hr2 : noSlash r2)
    (hne : ¬(o2 = o ∧ r2 = r)) :
    x ∈ branchesOf
        { s with worktrees := dictDel s.worktrees (worktreeKey o r b) } o2 r2 ↔
      x ∈ branchesOf s o2 r2 := by
  rw [mem_branchesOf, mem_branchesOf]
  constructor
  · rintro ⟨p, hp, hpo, hpr, hx⟩
    replace hp : p ∈ dictDel s.worktrees (worktreeKey o r b) := hp
    rw [mem_dictDel] at hp
    exact ⟨p, hp.1, hpo, hpr, hx⟩
  · rintro ⟨p, hp, hpo, hpr, hx⟩
    refine ⟨p, mem_dictDel.mpr ⟨hp, ?_⟩, hpo, hpr, hx⟩
    intro hpk
    have hkey := hwf.2.1 p hp
    rw [hpo, hpr, hx] at hkey
    rw [hkey] at hpk
    obtain ⟨h1, h2, -⟩ := worktreeKey_inj ho2 hr2 ho hr hpk
    exact hne ⟨h1, h2⟩

theorem entryConsistent_transport {s s2 : MetadataStorage}
    {p : String × BaseRepository}
    (h : p.2.worktrees.Nodup ∧
      (∀ b ∈ p.2.worktrees, b ∈ branchesOf s p.2.owner p.2.repo) ∧
      (∀ b ∈ branchesOf s p.2.owner p.2.repo, b ∈ p.2.worktrees))
    (hiff : ∀ x, x ∈ branchesOf s2 p.2.owner p.2.repo ↔
      x ∈ branchesOf s p.2.owner p.2.repo) :
    p.2.worktrees.Nodup ∧
      (∀ b ∈ p.2.worktrees, b ∈ branchesOf s2 p.2.owner p.2.repo) ∧
      (∀ b ∈ branchesOf s2 p.2.owner p.2.repo, b ∈ p.2.worktrees) :=
  ⟨h.1, fun b hb => (hiff b).mpr (h.2.1 b hb),
    fun b hb => h.2.2 b ((hiff b).mp hb)⟩

/-- `add_worktree` preserves well-formedness, slash-freedom, and the
bidirectional consistency invariant, provided the new worktree's owner
and repo avoid the key separator. -/
theorem storage_add_worktree_good {s : MetadataStorage} {w : WorktreeInfo}
    (hg : GoodStore s) (hwo : noSlash w.owner) (hwr : noSlash w.repo) :
    GoodStore (storage_add_worktree s w) := by
  obtain ⟨hwf, hsf, hcons⟩ := hg
  have hs1wf : WFStorage ({ s with worktrees := dictSet s.worktrees (worktreeKey w.owner w.repo w.branch) w }) := by
    refine ⟨hwf.1, ?_, hwf.2.2.1, dictSet_keys_nodup hwf.2.2.2⟩
    intro p hp
    replace hp : p ∈ dictSet s.worktrees (worktreeKey w.owner w.repo w.branch) w := hp
    rw [mem_dictSet] at hp
    rcases hp with ⟨hp, _⟩ | hp
    · exact hwf.2.1 p hp
    · rw [hp]
  have hs1sf : SlashFreeStore ({ s with worktrees := dictSet s.worktrees (worktreeKey w.owner w.repo w.branch) w }) := by
    refine ⟨hsf.1, ?_⟩
    intro p hp
    replace hp : p ∈ dictSet s.worktrees (worktreeKey w.owner w.repo w.branch) w := hp
    rw [mem_dictSet] at hp
    rcases hp with ⟨hp, _⟩ | hp
    · exact hsf.2 p hp
    · rw [hp]; exact ⟨hwo, hwr⟩
  show GoodStore (match storage_get_repository ({ s with worktrees := dictSet s.worktrees (worktreeKey w.owner w.repo w.branch) w }) w.owner w.repo with
    | some r =>
      if w.branch ∈ r.worktrees then ({ s with worktrees := dictSet s.worktrees (worktreeKey w.owner w.repo w.branch) w })
      else storage_add_repository ({ s with worktrees := dictSet s.worktrees (worktreeKey w.owner w.repo w.branch) w }) { r with worktrees := r.worktrees ++ [w.branch] }
    | none => ({ s with worktrees := dictSet s.worktrees (worktreeKey w.owner w.repo w.branch) w }))
  cases hrep : storage_get_repository ({ s with worktrees := dictSet s.worktrees (worktreeKey w.owner w.repo w.branch) w }) w.owner w.repo with
  | none =>
    refine ⟨hs1wf, hs1sf, ?_⟩
    intro p hp
    replace hp : p ∈ s.repositories := hp
    have hC := hcons p hp
    have hpsl := hsf.1 p hp
    have hpne : ¬(p.2.owner = w.owner ∧ p.2.repo = w.repo) := by
      rintro ⟨h1, h2⟩
      have hkey := hwf.1 p hp
      rw [h1, h2] at hkey
      have hnone : dictGet s.repositories (repoKey w.owner w.repo) = none := hrep
      exact (dictGet_none_iff.mp hnone) p hp hkey
    exact entryConsistent_transport hC (fun x =>
      branchesOf_set_worktrees_other hwf hsf hwo hwr hpsl.1 hpsl.2 hpne)
  | some r =>
    show GoodStore (if w.branch ∈ r.worktrees then ({ s with worktrees := dictSet s.worktrees (worktreeKey w.owner w.repo w.branch) w }) else storage_add_repository ({ s with worktrees := dictSet s.worktrees (worktreeKey w.owner w.repo w.branch) w }) { r with worktrees := r.worktrees ++ [w.branch] })
    have hmem_r : (repoKey w.owner w.repo, r) ∈ s.repositories :=
      dictGet_some_mem hrep
    have hrsl := hsf.1 _ hmem_r
    have hror : r.owner = w.owner ∧ r.repo = w.repo := by
      have hkey := hwf.1 _ hmem_r
      have := repoKey_inj hwo hrsl.1 hkey
      exact ⟨this.1.symm, this.2.symm⟩
    have hCr := hcons _ hmem_r
    by_cases hbmem : w.branch ∈ r.worktrees
    · rw [if_pos hbmem]
      refine ⟨hs1wf, hs1sf, ?_⟩
      intro p hp
      replace hp : p ∈ s.repositories := hp
      have hC := hcons p hp
      have hpsl := hsf.1 p hp
      by_cases hpw : p.2.owner = w.owner ∧ p.2.repo = w.repo
      · have hpeq : p = (repoKey w.owner w.repo, r) := by
          refine mem_eq_of_nodup_keys hwf.2.2.1 hp hmem_r ?_
          have hkey := hwf.1 p hp
          rw [hkey, hpw.1, hpw.2]
        have hp2 : p.2 = r := congrArg Prod.snd hpeq
        refine ⟨hC.1, ?_, ?_⟩
        · intro b hb
          rw [hpw.1, hpw.2]
          refine (branchesOf_set_worktrees_same hwf hsf hwo hwr).mpr (Or.inl ?_)
          rw [← hpw.1, ← hpw.2]
          exact hC.2.1 b hb
        · intro b hb
          rw [hpw.1, hpw.2] at hb
          rcases (branchesOf_set_worktrees_same hwf hsf hwo hwr).mp hb with h | h
          · refine hC.2.2 b ?_
            rw [hpw.1, hpw.2]
            exact h
          · rw [h, hp2]
            exact hbmem
      · exact entryConsistent_transport hC (fun x =>
          branchesOf_set_worktrees_other hwf hsf hwo hwr hpsl.1 hpsl.2 hpw)
    · rw [if_neg hbmem]
      -- the updated repository entry
      have hror' : ({ r with worktrees := r.worktrees ++ [w.branch] } : BaseRepository).owner = r.owner := rfl
      refine ⟨?_, ?_, ?_⟩
      · -- well-formedness
        refine ⟨?_, hs1wf.2.1, ?_, hs1wf.2.2.2⟩
        · intro p hp
          replace hp : p ∈ dictSet s.repositories
              (repoKey r.owner r.repo) { r with worktrees := r.worktrees ++ [w.branch] } := hp
          rw [mem_dictSet] at hp
          rcases hp with ⟨hp, _⟩ | hp
          · exact hwf.1 p hp
          · rw [hp]
        · exact dictSet_keys_nodup hwf.2.2.1
      · -- slash-freedom
        refine ⟨?_, hs1sf.2⟩
        intro p hp
        replace hp : p ∈ dictSet s.repositories
            (repoKey r.owner r.repo) { r with worktrees := r.worktrees ++ [w.branch] } := hp
        rw [mem_dictSet] at hp
        rcases hp with ⟨hp, _⟩ | hp
        · exact hsf.1 p hp
        · rw [hp]; exact hrsl
      · -- consistency
        intro p hp
        replace hp : p ∈ dictSet s.repositories
            (repoKey r.owner r.repo) { r with worktrees := r.worktrees ++ [w.branch] } := hp
        rw [mem_dictSet] at hp
        rcases hp with ⟨hp, hpk⟩ | hp
        · -- untouched entry: different key, hence different (owner, repo)
          have hC := hcons p hp
          have hpsl := hsf.1 p hp
          have hpw : ¬(p.2.owner = w.owner ∧ p.2.repo = w.repo) := by
            rintro ⟨h1, h2⟩
            apply hpk
            have hkey := hwf.1 p hp
            rw [hkey, h1, h2, ← hror.1, ← hror.2]
          exact entryConsistent_transport hC (fun x =>
            branchesOf_set_worktrees_other hwf hsf hwo hwr hpsl.1 hpsl.2 hpw)
        · -- the updated entry
          subst hp
          refine ⟨?_, ?_, ?_⟩
          · rw [List.nodup_append]
            refine ⟨hCr.1, List.nodup_singleton _, ?_⟩
            intro x hx hx1
            rw [List.mem_singleton] at hx1
            rw [hx1] at hx
            exact hbmem hx
          · intro b hb
            show b ∈ branchesOf _ r.owner r.repo
            rw [hror.1, hror.2]
            refine (branchesOf_set_worktrees_same hwf hsf hwo hwr).mpr ?_
            rcases List.mem_append.mp hb with h | h
            · refine Or.inl ?_
              rw [← hror.1, ← hror.2]
              exact hCr.2.1 b h
            · exact Or.inr (List.mem_singleton.mp h)
          · intro b hb
            replace hb : b ∈ branchesOf ({ s with worktrees := dictSet s.worktrees (worktreeKey w.owner w.repo w.branch) w }) r.owner r.repo := hb
            rw [hror.1, hror.2] at hb
            rcases (branchesOf_set_worktrees_same hwf hsf hwo hwr).mp hb with h | h
            · refine List.mem_append.mpr (Or.inl ?_)
              refine hCr.2.2 b ?_
              rw [hror.1, hror.2]
              exact h
            · exact List.mem_append.mpr (Or.inr (by rw [h]; exact List.mem_singleton_self _))

/-- `remove_worktree` preserves well-formedness, slash-freedom, and the
bidirectional consistency invariant, provided the named owner and repo
avoid the key separator. -/
theorem storage_remove_worktree_good {s : MetadataStorage} {o r b : String}
    (hg : GoodStore s) (ho : noSlash o) (hr : noSlash r) :
    GoodStore (storage_remove_worktree s o r b) := by
  obtain ⟨hwf, hsf, hcons⟩ := hg
  unfold storage_remove_worktree
  by_cases hpresent : (dictGet s.worktrees (worktreeKey o r b)).isSome
  swap
  · rw [if_neg hpresent]
    exact ⟨hwf, hsf, hcons⟩
  rw [if_pos hpresent]
  have hs1wf : WFStorage ({ s with worktrees := dictDel s.worktrees (worktreeKey o r b) }) := by
    refine ⟨hwf.1, ?_, hwf.2.2.1, dictDel_keys_nodup hwf.2.2.2⟩
    intro p hp
    replace hp : p ∈ dictDel s.worktrees (worktreeKey o r b) := hp
    rw [mem_dictDel] at hp
    exact hwf.2.1 p hp.1
  have hs1sf : SlashFreeStore ({ s with worktrees := dictDel s.worktrees (worktreeKey o r b) }) := by
    refine ⟨hsf.1, ?_⟩
    intro p hp
    replace hp : p ∈ dictDel s.worktrees (worktreeKey o r b) := hp
    rw [mem_dictDel] at hp
    exact hsf.2 p hp.1
  show GoodStore (match storage_get_repository ({ s with worktrees := dictDel s.worktrees (worktreeKey o r b) }) o r with
    | some rr => if b ∈ rr.worktrees then storage_add_repository ({ s with worktrees := dictDel s.worktrees (worktreeKey o r b) }) { rr with worktrees := rr.worktrees.erase b } else ({ s with worktrees := dictDel s.worktrees (worktreeKey o r b) })
    | none => ({ s with worktrees := dictDel s.worktrees (worktreeKey o r b) }))
  cases hrep : storage_get_repository ({ s with worktrees := dictDel s.worktrees (worktreeKey o r b) }) o r with
  | none =>
    refine ⟨hs1wf, hs1sf, ?_⟩
    intro p hp
    replace hp : p ∈ s.repositories := hp
    have hC := hcons p hp
    have hpsl := hsf.1 p hp
    have hpne : ¬(p.2.owner = o ∧ p.2.repo = r) := by
      rintro ⟨h1, h2⟩
      have hkey := hwf.1 p hp
      rw [h1, h2] at hkey
      have hnone : dictGet s.repositories (repoKey o r) = none := hrep
      exact (dictGet_none_iff.mp hnone) p hp hkey
    exact entryConsistent_transport hC (fun x =>
      branchesOf_del_worktrees_other hwf hsf ho hr hpsl.1 hpsl.2 hpne)
  | some rr =>
    show GoodStore (if b ∈ rr.worktrees then storage_add_repository ({ s with worktrees := dictDel s.worktrees (worktreeKey o r b) }) { rr with worktrees := rr.worktrees.erase b } else ({ s with worktrees := dictDel s.worktrees (worktreeKey o r b) }))
    have hmem_rr : (repoKey o r, rr) ∈ s.repositories := dictGet_some_mem hrep
    have hrrsl := hsf.1 _ hmem_rr
    have hror : rr.owner = o ∧ rr.repo = r := by
      have hkey := hwf.1 _ hmem_rr
      have := repoKey_inj ho hrrsl.1 hkey
      exact ⟨this.1.symm, this.2.symm⟩
    have hCrr := hcons _ hmem_rr
    by_cases hbmem : b ∈ rr.worktrees
    · rw [if_pos hbmem]
      refine ⟨?_, ?_, ?_⟩
      · refine ⟨?_, hs1wf.2.1, ?_, hs1wf.2.2.2⟩
        · intro p hp
          replace hp : p ∈ dictSet s.repositories
              (repoKey rr.owner rr.repo) { rr with worktrees := rr.worktrees.erase b } := hp
          rw [mem_dictSet] at hp
          rcases hp with ⟨hp, _⟩ | hp
          · exact hwf.1 p hp
          · rw [hp]
        · exact dictSet_keys_nodup hwf.2.2.1
      · refine ⟨?_, hs1sf.2⟩
        intro p hp
        replace hp : p ∈ dictSet s.repositories
            (repoKey rr.owner rr.repo) { rr with worktrees := rr.worktrees.erase b } := hp
        rw [mem_dictSet] at hp
        rcases hp with ⟨hp, _⟩ | hp
        · exact hsf.1 p hp
        · rw [hp]; exact hrrsl
      · intro p hp
        replace hp : p ∈ dictSet s.repositories
            (repoKey rr.owner rr.repo) { rr with worktrees := rr.worktrees.erase b } := hp
        rw [mem_dictSet] at hp
        rcases hp with ⟨hp, hpk⟩ | hp
        · have hC := hcons p hp
          have hpsl := hsf.1 p hp
          have hpw : ¬(p.2.owner = o ∧ p.2.repo = r) := by
            rintro ⟨h1, h2⟩
            apply hpk
            have hkey := hwf.1 p hp
            rw [hkey, h1, h2, ← hror.1, ← hror.2]
          exact entryConsistent_transport hC (fun x =>
            branchesOf_del_worktrees_other hwf hsf ho hr hpsl.1 hpsl.2 hpw)
        · subst hp
          refine ⟨hCrr.1.erase b, ?_, ?_⟩
          · intro x hx
            show x ∈ branchesOf _ rr.owner rr.repo
            rw [hror.1, hror.2]
            rw [hCrr.1.mem_erase_iff] at hx
            refine (branchesOf_del_worktrees_same hwf hsf ho hr).mpr ?_
            refine ⟨?_, hx.1⟩
            rw [← hror.1, ← hror.2]
            exact hCrr.2.1 x hx.2
          · intro x hx
            replace hx : x ∈ branchesOf ({ s with worktrees := dictDel s.worktrees (worktreeKey o r b) }) rr.owner rr.repo := hx
            rw [hror.1, hror.2] at hx
            obtain ⟨hx1, hx2⟩ := (branchesOf_del_worktrees_same hwf hsf ho hr).mp hx
            rw [hCrr.1.mem_erase_iff]
            refine ⟨hx2, ?_⟩
            refine hCrr.2.2 x ?_
            rw [hror.1, hror.2]
            exact hx1
    · rw [if_neg hbmem]
      refine ⟨hs1wf, hs1sf, ?_⟩
      intro p hp
      replace hp : p ∈ s.repositories := hp
      have hC := hcons p hp
      have hpsl := hsf.1 p hp
      by_cases hpw : p.2.owner = o ∧ p.2.repo = r
      · have hpeq : p = (repoKey o r, rr) := by
          refine mem_eq_of_nodup_keys hwf.2.2.1 hp hmem_rr ?_
          have hkey := hwf.1 p hp
          rw [hkey, hpw.1, hpw.2]
        have hp2 : p.2 = rr := congrArg Prod.snd hpeq
        refine ⟨hC.1, ?_, ?_⟩
        · intro x hx
          rw [hpw.1, hpw.2]
          refine (branchesOf_del_worktrees_same hwf hsf ho hr).mpr ?_
          refine ⟨?_, ?_⟩
          · rw [← hpw.1, ← hpw.2]
            exact hC.2.1 x hx
          · intro hxb
            rw [hxb, hp2] at hx
            exact hbmem hx
        · intro x hx
          rw [hpw.1, hpw.2] at hx
          obtain ⟨hx1, -⟩ := (branchesOf_del_worktrees_same hwf hsf ho hr).mp hx
          refine hC.2.2 x ?_
          rw [hpw.1, hpw.2]
          exact hx1
      · exact entryConsistent_transport hC (fun x =>
          branchesOf_del_worktrees_other hwf hsf ho hr hpsl.1 hpsl.2 hpw)

theorem pathExists_cons {fs : List (List String)} {x p : List String} :
    pathExists (x :: fs) p = (p.isPrefixOf x || pathExists fs p) := by
  simp [pathExists]

theorem pathExists_mkPath_of {fs : List (List String)} {p : List String}
    (x : List String) (h : pathExists fs p = true) :
    pathExists (mkPath fs x) p = true := by
  rw [mkPath, pathExists_cons, h, Bool.or_true]

theorem pathExists_mkPath_prefix {fs : List (List String)} {p x : List String}
    (h : p <+: x) : pathExists (mkPath fs x) p = true := by
  rw [mkPath, pathExists_cons]
  rw [show p.isPrefixOf x = true from List.isPrefixOf_iff_prefix.mpr h]
  rfl

theorem pathExists_rmtree_ext (fs : List (List String)) (p q : List String) :
    pathExists (rmtree fs p) (p ++ q) = false := by
  rw [pathExists, List.any_eq_false]
  intro x hx
  rw [rmtree, List.mem_filter] at hx
  simp only [Bool.not_eq_true'] at hx
  intro hpre
  rw [List.isPrefixOf_iff_prefix] at hpre
  have : p.isPrefixOf x = true :=
    List.isPrefixOf_iff_prefix.mpr ((List.prefix_append p q).trans hpre)
  rw [hx.2] at this
  exact Bool.false_ne_true this

theorem pathExists_false_ext {fs : List (List String)} {p : List String}
    (q : List String) (h : pathExists fs p = false) :
    pathExists fs (p ++ q) = false := by
  rw [pathExists, List.any_eq_false]
  intro x hx
  rw [pathExists, List.any_eq_false] at h
  intro hpre
  rw [List.isPrefixOf_iff_prefix] at hpre
  exact h x hx (List.isPrefixOf_iff_prefix.mpr ((List.prefix_append p q).trans hpre))

theorem dictGet_isSome_dictSet {m : List (String × α)} {k2 k : String} {v : α}
    (h : (dictGet m k2).isSome) : (dictGet (dictSet m k v) k2).isSome := by
  rw [dictGet, Option.isSome_map'] at h ⊢
  rw [List.find?_isSome] at h ⊢
  obtain ⟨p, hp, hpk⟩ := h
  by_cases hk : p.1 = k
  · refine ⟨(k, v), mem_dictSet.mpr (Or.inr rfl), ?_⟩
    rw [← hk]
    exact hpk
  · exact ⟨p, mem_dictSet.mpr (Or.inl ⟨hp, hk⟩), hpk⟩

theorem storage_add_worktree_worktrees (s : MetadataStorage) (w : WorktreeInfo) :
    (storage_add_worktree s w).worktrees
      = dictSet s.worktrees (worktreeKey w.owner w.repo w.branch) w := by
  unfold storage_add_worktree
  show (match storage_get_repository ({ s with worktrees := dictSet s.worktrees (worktreeKey w.owner w.repo w.branch) w }) w.owner w.repo with
    | some r => if w.branch ∈ r.worktrees then ({ s with worktrees := dictSet s.worktrees (worktreeKey w.owner w.repo w.branch) w }) else storage_add_repository ({ s with worktrees := dictSet s.worktrees (worktreeKey w.owner w.repo w.branch) w }) { r with worktrees := r.worktrees ++ [w.branch] }
    | none => ({ s with worktrees := dictSet s.worktrees (worktreeKey w.owner w.repo w.branch) w })).worktrees = _
  cases storage_get_repository ({ s with worktrees := dictSet s.worktrees (worktreeKey w.owner w.repo w.branch) w }) w.owner w.repo with
  | none => rfl
  | some r =>
    show (if w.branch ∈ r.worktrees then ({ s with worktrees := dictSet s.worktrees (worktreeKey w.owner w.repo w.branch) w }) else storage_add_repository ({ s with worktrees := dictSet s.worktrees (worktreeKey w.owner w.repo w.branch) w }) { r with worktrees := r.worktrees ++ [w.branch] }).worktrees = _
    split <;> rfl

theorem storage_add_worktree_repo_isSome {s : MetadataStorage}
    {w : WorktreeInfo} {o r : String}
    (h : (storage_get_repository s o r).isSome) :
    (storage_get_repository (storage_add_worktree s w) o r).isSome := by
  unfold storage_add_worktree
  show (storage_get_repository (match storage_get_repository ({ s with worktrees := dictSet s.worktrees (worktreeKey w.owner w.repo w.branch) w }) w.owner w.repo with
    | some rr => if w.branch ∈ rr.worktrees then ({ s with worktrees := dictSet s.worktrees (worktreeKey w.owner w.repo w.branch) w }) else storage_add_repository ({ s with worktrees := dictSet s.worktrees (worktreeKey w.owner w.repo w.branch) w }) { rr with worktrees := rr.worktrees ++ [w.branch] }
    | none => ({ s with worktrees := dictSet s.worktrees (worktreeKey w.owner w.repo w.branch) w })) o r).isSome
  cases storage_get_repository ({ s with worktrees := dictSet s.worktrees (worktreeKey w.owner w.repo w.branch) w }) w.owner w.repo with
  | none => exact h
  | some rr =>
    show (storage_get_repository (if w.branch ∈ rr.worktrees then ({ s with worktrees := dictSet s.worktrees (worktreeKey w.owner w.repo w.branch) w }) else storage_add_repository ({ s with worktrees := dictSet s.worktrees (worktreeKey w.owner w.repo w.branch) w }) { rr with worktrees := rr.worktrees ++ [w.branch] }) o r).isSome
    split
    · exact h
    · exact dictGet_isSome_dictSet h

theorem repo_exists_mkPath {fs : List (List String)} {rd : List String}
    {o r : String} (x : List String) (h : repo_exists fs rd o r = true) :
    repo_exists (mkPath fs x) rd o r = true := by
  unfold repo_exists at h ⊢
  by_cases hp : pathExists fs (get_repo_path rd o r)
  · rw [if_neg (by simp [hp])] at h
    rw [if_neg (by simp [pathExists_mkPath_of x hp])]
    rcases (show pathExists fs (get_repo_path rd o r ++ ["HEAD"]) = true ∨
        pathExists fs (get_repo_path rd o r ++ [".git"]) = true by
      simpa using h) with h1 | h1
    · rw [pathExists_mkPath_of x h1]
      rfl
    · rw [pathExists_mkPath_of x h1, Bool.or_true]
  · rw [if_pos (by simp [Bool.not_eq_true'] at hp ⊢; exact hp)] at h
    exact absurd h (by simp)

theorem worktree_exists_mkPath {fs : List (List String)} {rd : List String}
    {o r b : String} (x : List String) (h : worktree_exists fs rd o r b = true) :
    worktree_exists (mkPath fs x) rd o r b = true := by
  unfold worktree_exists at h ⊢
  rw [Bool.and_eq_true] at h ⊢
  exact ⟨pathExists_mkPath_of x h.1, pathExists_mkPath_of x h.2⟩

theorem get_repo_isSome_of {st : MetadataStorage} {fs : List (List String)}
    {rd : List String} {o r : String}
    (h1 : (storage_get_repository st o r).isSome)
    (h2 : repo_exists fs rd o r = true) : (get_repo st fs rd o r).isSome := by
  unfold get_repo
  obtain ⟨b, hb⟩ := Option.isSome_iff_exists.mp h1
  rw [hb]
  show (if repo_exists fs rd o r = true then some b else none).isSome = true
  rw [if_pos h2]
  rfl

theorem get_repo_some_elim {st : MetadataStorage} {fs : List (List String)}
    {rd : List String} {o r : String} {b : BaseRepository}
    (h : get_repo st fs rd o r = some b) :
    storage_get_repository st o r = some b ∧ repo_exists fs rd o r = true := by
  unfold get_repo at h
  cases hg : storage_get_repository st o r with
  | none => rw [hg] at h; cases h
  | some bb =>
    rw [hg] at h
    replace h : (if repo_exists fs rd o r = true then some bb else none) = some b := h
    by_cases he : repo_exists fs rd o r = true
    · rw [if_pos he] at h
      cases h
      exact ⟨rfl, he⟩
    · rw [if_neg he] at h
      cases h

theorem get_worktree_some_elim {st : MetadataStorage} {fs : List (List String)}
    {rd : List String} {o r b : String} {w : WorktreeInfo}
    (h : get_worktree st fs rd o r b = some w) :
    storage_get_worktree st o r b = some w ∧ worktree_exists fs rd o r b = true := by
  unfold get_worktree at h
  cases hg : storage_get_worktree st o r b with
  | none => rw [hg] at h; cases h
  | some ww =>
    rw [hg] at h
    replace h : (if worktree_exists fs rd o r b = true then some ww else none) = some w := h
    by_cases he : worktree_exists fs rd o r b = true
    · rw [if_pos he] at h
      cases h
      exact ⟨rfl, he⟩
    · rw [if_neg he] at h
      cases h

theorem get_worktree_of {st : MetadataStorage} {fs : List (List String)}
    {rd : List String} {o r b : String} {w : WorktreeInfo}
    (h1 : storage_get_worktree st o r b = some w)
    (h2 : worktree_exists fs rd o r b = true) :
    get_worktree st fs rd o r b = some w := by
  unfold get_worktree
  rw [h1]
  show (if worktree_exists fs rd o r b = true then some w else none) = some w
  rw [if_pos h2]

theorem pathExists_cleanup (fs1 : List (List String)) (p : List String) :
    pathExists (if pathExists fs1 p then rmtree fs1 p else fs1) p = false := by
  by_cases hp : pathExists fs1 p = true
  · rw [if_pos hp]
    simpa using pathExists_rmtree_ext fs1 p []
  · rw [if_neg hp]
    simpa using hp

theorem clone_repo_shortcircuit (env : GitEnv) (sys : Sys) (rd : List String)
    (o r u : String) {ex : BaseRepository}
    (h : (if pathExists sys.fs (get_repo_path rd o r) then
        get_repo sys.storage sys.fs rd o r else none) = some ex) :
    clone_repo env sys rd o r u = (Except.ok ex, sys) := by
  simp only [clone_repo]
  rw [h]

theorem clone_repo_run_ok (env : GitEnv) (sys : Sys) (rd : List String)
    (o r u : String)
    (h : (if pathExists sys.fs (get_repo_path rd o r) then
        get_repo sys.storage sys.fs rd o r else none) = none)
    (hok : env.cloneOk = true) :
    clone_repo env sys rd o r u =
      (Except.ok { owner := o, repo := r, remote_url := u, local_path := get_repo_path rd o r, default_branch := env.defaultBranch, last_fetched := some sys.now, worktrees := [] },
       { sys with fs := mkPath (mkPath sys.fs (get_repo_path rd o r).dropLast) (get_repo_path rd o r ++ ["HEAD"]), storage := storage_add_repository sys.storage { owner := o, repo := r, remote_url := u, local_path := get_repo_path rd o r, default_branch := env.defaultBranch, last_fetched := some sys.now, worktrees := [] }, cloneCalls := sys.cloneCalls + 1 }) := by
  simp only [clone_repo]
  rw [h]
  simp only [hok, if_true]

theorem clone_repo_run_fail (env : GitEnv) (sys : Sys) (rd : List String)
    (o r u : String)
    (h : (if pathExists sys.fs (get_repo_path rd o r) then
        get_repo sys.storage sys.fs rd o r else none) = none)
    (hfail : env.cloneOk = false) :
    clone_repo env sys rd o r u =
      (Except.error MgrError.cloneFailed, cloneFailState env sys rd o r) := by
  simp only [clone_repo, cloneFailState]
  rw [h]
  simp only [hfail, if_false, Bool.false_eq_true]

theorem create_worktree_body_shortcircuit (env : GitEnv) (sys : Sys)
    (rd : List String) (o r b : String) {ex : WorktreeInfo}
    (h : (if pathExists sys.fs (get_worktree_path rd o r b) then
        get_worktree sys.storage sys.fs rd o r b else none) = some ex) :
    create_worktree_body env sys rd o r b = (Except.ok ex, sys) := by
  simp only [create_worktree_body]
  rw [h]

theorem create_worktree_body_run_ok (env : GitEnv) (sys : Sys)
    (rd : List String) (o r b : String)
    (h : (if pathExists sys.fs (get_worktree_path rd o r b) then
        get_worktree sys.storage sys.fs rd o r b else none) = none)
    (hok : env.worktreeAddOk = true) :
    create_worktree_body env sys rd o r b =
      (Except.ok { owner := o, repo := r, branch := b, local_path := get_worktree_path rd o r b, workspace_id := generate_workspace_id o r b, created_at := sys.now, last_used := sys.now, devpod_workspace_id := none },
       { sys with fs := mkPath (mkPath sys.fs (get_worktree_path rd o r b).dropLast) (get_worktree_path rd o r b ++ [".git"]), storage := storage_add_worktree sys.storage { owner := o, repo := r, branch := b, local_path := get_worktree_path rd o r b, workspace_id := generate_workspace_id o r b, created_at := sys.now, last_used := sys.now, devpod_workspace_id := none }, worktreeAddCalls := sys.worktreeAddCalls + 1 }) := by
  simp only [create_worktree_body]
  rw [h]
  simp only [hok, if_true]

theorem create_worktree_body_run_fail (env : GitEnv) (sys : Sys)
    (rd : List String) (o r b : String)
    (h : (if pathExists sys.fs (get_worktree_path rd o r b) then
        get_worktree sys.storage sys.fs rd o r b else none) = none)
    (hfail : env.worktreeAddOk = false) :
    create_worktree_body env sys rd o r b =
      (Except.error MgrError.worktreeAddFailed, addFailState env sys rd o r b) := by
  simp only [create_worktree_body, addFailState]
  rw [h]
  simp only [hfail, if_false, Bool.false_eq_true]

theorem ifscrut_some_elim {fs : List (List String)} {p : List String}
    {X : Option α} {b : α}
    (h : (if pathExists fs p then X else none) = some b) :
    X = some b ∧ pathExists fs p = true := by
  by_cases hp : pathExists fs p = true
  · rw [if_pos hp] at h
    exact ⟨h, hp⟩
  · rw [if_neg hp] at h
    cases h

/-- After a successful `clone_repo`, the idempotence scrutinee of a
repeated call resolves to the returned metadata: the path exists and
`get_repo` returns it. -/
theorem clone_repo_ok_post (env : GitEnv) (sys : Sys) (rd : List String)
    (o r u : String) {b : BaseRepository}
    (h : (clone_repo env sys rd o r u).fst = Except.ok b) :
    (if pathExists (clone_repo env sys rd o r u).snd.fs (get_repo_path rd o r) then
        get_repo (clone_repo env sys rd o r u).snd.storage
          (clone_repo env sys rd o r u).snd.fs rd o r
      else none) = some b := by
  cases hsc : (if pathExists sys.fs (get_repo_path rd o r) then
      get_repo sys.storage sys.fs rd o r else none) with
  | some ex =>
    rw [clone_repo_shortcircuit env sys rd o r u hsc] at h ⊢
    replace h : Except.ok ex = Except.ok b := h
    cases h
    exact hsc
  | none =>
    by_cases hok : env.cloneOk = true
    · rw [clone_repo_run_ok env sys rd o r u hsc hok] at h ⊢
      replace h : Except.ok { owner := o, repo := r, remote_url := u, local_path := get_repo_path rd o r, default_branch := env.defaultBranch, last_fetched := some sys.now, worktrees := [] } = Except.ok b := h
      cases h
      have hp1 : pathExists (mkPath (mkPath sys.fs (get_repo_path rd o r).dropLast) (get_repo_path rd o r ++ ["HEAD"])) (get_repo_path rd o r) = true :=
        pathExists_mkPath_prefix (List.prefix_append _ _)
      have hp2 : pathExists (mkPath (mkPath sys.fs (get_repo_path rd o r).dropLast) (get_repo_path rd o r ++ ["HEAD"])) (get_repo_path rd o r ++ ["HEAD"]) = true :=
        pathExists_mkPath_prefix (List.prefix_refl _)
      have hre : repo_exists (mkPath (mkPath sys.fs (get_repo_path rd o r).dropLast) (get_repo_path rd o r ++ ["HEAD"])) rd o r = true := by
        unfold repo_exists
        rw [if_neg (by simp [hp1])]
        rw [hp2]
        rfl
      have hst : storage_get_repository (storage_add_repository sys.storage { owner := o, repo := r, remote_url := u, local_path := get_repo_path rd o r, default_branch := env.defaultBranch, last_fetched := some sys.now, worktrees := [] }) o r = some { owner := o, repo := r, remote_url := u, local_path := get_repo_path rd o r, default_branch := env.defaultBranch, last_fetched := some sys.now, worktrees := [] } := by
        unfold storage_get_repository storage_add_repository
        exact dictGet_dictSet_self _ _ _
      show (if pathExists (mkPath (mkPath sys.fs (get_repo_path rd o r).dropLast) (get_repo_path rd o r ++ ["HEAD"])) (get_repo_path rd o r) then get_repo (storage_add_repository sys.storage { owner := o, repo := r, remote_url := u, local_path := get_repo_path rd o r, default_branch := env.defaultBranch, last_fetched := some sys.now, worktrees := [] }) (mkPath (mkPath sys.fs (get_repo_path rd o r).dropLast) (get_repo_path rd o r ++ ["HEAD"])) rd o r else none) = _
      rw [if_pos hp1]
      unfold get_repo
      rw [hst]
      show (if repo_exists (mkPath (mkPath sys.fs (get_repo_path rd o r).dropLast) (get_repo_path rd o r ++ ["HEAD"])) rd o r = true then some ({ owner := o, repo := r, remote_url := u, local_path := get_repo_path rd o r, default_branch := env.defaultBranch, last_fetched := some sys.now, worktrees := [] } : BaseRepository) else none) = _
      rw [if_pos hre]
    · rw [clone_repo_run_fail env sys rd o r u hsc (by simpa using hok)] at h
      replace h : (Except.error MgrError.cloneFailed : Except MgrError BaseRepository) = Except.ok b := h
      cases h

theorem cloneFailState_no_repo (env : GitEnv) (sys : Sys) (rd : List String)
    (o r : String) :
    pathExists (cloneFailState env sys rd o r).fs (get_repo_path rd o r) = false := by
  simp only [cloneFailState]
  exact pathExists_cleanup _ _

theorem addFailState_no_worktree (env : GitEnv) (sys : Sys) (rd : List String)
    (o r b : String) :
    pathExists (addFailState env sys rd o r b).fs (get_worktree_path rd o r b) = false := by
  simp only [addFailState]
  exact pathExists_cleanup _ _

/-- A failing `clone_repo` leaves no target directory behind. -/
theorem clone_repo_error_state (env : GitEnv) (sys : Sys) (rd : List String)
    (o r u : String) {e : MgrError}
    (h : (clone_repo env sys rd o r u).fst = Except.error e) :
    pathExists (clone_repo env sys rd o r u).snd.fs (get_repo_path rd o r) = false := by
  cases hsc : (if pathExists sys.fs (get_repo_path rd o r) then
      get_repo sys.storage sys.fs rd o r else none) with
  | some ex =>
    rw [clone_repo_shortcircuit env sys rd o r u hsc] at h
    replace h : Except.ok ex = Except.error e := h
    cases h
  | none =>
    by_cases hok : env.cloneOk = true
    · rw [clone_repo_run_ok env sys rd o r u hsc hok] at h
      replace h : Except.ok ({ owner := o, repo := r, remote_url := u, local_path := get_repo_path rd o r, default_branch := env.defaultBranch, last_fetched := some sys.now, worktrees := [] } : BaseRepository) = Except.error e := h
      cases h
    · rw [clone_repo_run_fail env sys rd o r u hsc (by simpa using hok)]
      exact cloneFailState_no_repo env sys rd o r

/-- A failing `create_worktree_body` leaves no worktree directory
behind. -/
theorem create_worktree_body_error_state (env : GitEnv) (sys : Sys)
    (rd : List String) (o r b : String) {e : MgrError}
    (h : (create_worktree_body env sys rd o r b).fst = Except.error e) :
    pathExists (create_worktree_body env sys rd o r b).snd.fs
      (get_worktree_path rd o r b) = false := by
  cases hsc : (if pathExists sys.fs (get_worktree_path rd o r b) then
      get_worktree sys.storage sys.fs rd o r b else none) with
  | some ex =>
    rw [create_worktree_body_shortcircuit env sys rd o r b hsc] at h
    replace h : Except.ok ex = Except.error e := h
    cases h
  | none =>
    by_cases hok : env.worktreeAddOk = true
    · rw [create_worktree_body_run_ok env sys rd o r b hsc hok] at h
      replace h : Except.ok ({ owner := o, repo := r, branch := b, local_path := get_worktree_path rd o r b, workspace_id := generate_workspace_id o r b, created_at := sys.now, last_used := sys.now, devpod_workspace_id := none } : WorktreeInfo) = Except.error e := h
      cases h
    · rw [create_worktree_body_run_fail env sys rd o r b hsc (by simpa using hok)]
      exact addFailState_no_worktree env sys rd o r b

theorem ensure_repo_eq_existing (env : GitEnv) (sys : Sys) (rd : List String)
    (o r u : String) {ex : BaseRepository}
    (hex : repo_exists sys.fs rd o r = true)
    (hg : get_repo sys.storage sys.fs rd o r = some ex) :
    ensure_repo env sys rd o r u =
      if should_fetch env sys.now ex then
        if env.fetchOk then
          (Except.ok { ex with last_fetched := some sys.now },
           { sys with storage := storage_add_repository sys.storage { ex with last_fetched := some sys.now } })
        else (Except.ok ex, sys)
      else (Except.ok ex, sys) := by
  simp only [ensure_repo]
  rw [if_pos hex, hg]

/-- On a world where the repository directory and metadata are present,
`ensure_repo` succeeds without cloning, leaving the filesystem, the
worktree map, and both subprocess counters unchanged. -/
theorem ensure_repo_existing (env : GitEnv) (sys : Sys) (rd : List String)
    (o r u : String)
    (hex : repo_exists sys.fs rd o r = true)
    (hsome : (storage_get_repository sys.storage o r).isSome) :
    (∃ b2, (ensure_repo env sys rd o r u).fst = Except.ok b2) ∧
    (ensure_repo env sys rd o r u).snd.fs = sys.fs ∧
    (ensure_repo env sys rd o r u).snd.storage.worktrees = sys.storage.worktrees ∧
    (ensure_repo env sys rd o r u).snd.cloneCalls = sys.cloneCalls ∧
    (ensure_repo env sys rd o r u).snd.worktreeAddCalls = sys.worktreeAddCalls := by
  obtain ⟨ex, hg⟩ := Option.isSome_iff_exists.mp (get_repo_isSome_of hsome hex)
  rw [ensure_repo_eq_existing env sys rd o r u hex hg]
  by_cases hsf : should_fetch env sys.now ex = true
  · rw [if_pos hsf]
    by_cases hfok : env.fetchOk = true
    · rw [if_pos hfok]
      exact ⟨⟨_, rfl⟩, rfl, rfl, rfl, rfl⟩
    · rw [if_neg hfok]
      exact ⟨⟨_, rfl⟩, rfl, rfl, rfl, rfl⟩
  · rw [if_neg hsf]
    exact ⟨⟨_, rfl⟩, rfl, rfl, rfl, rfl⟩

/-- After a successful `ensure_repo`, the repository directory and
metadata are present. -/
theorem ensure_repo_ok_post (env : GitEnv) (sys : Sys) (rd : List String)
    (o r u : String) {b : BaseRepository}
    (h : (ensure_repo env sys rd o r u).fst = Except.ok b) :
    repo_exists (ensure_repo env sys rd o r u).snd.fs rd o r = true ∧
    (storage_get_repository (ensure_repo env sys rd o r u).snd.storage o r).isSome := by
  by_cases hex : repo_exists sys.fs rd o r = true
  · cases hg : get_repo sys.storage sys.fs rd o r with
    | some ex =>
      obtain ⟨hst, -⟩ := get_repo_some_elim hg
      have hsome : (storage_get_repository sys.storage o r).isSome := by
        rw [hst]
        rfl
      rw [ensure_repo_eq_existing env sys rd o r u hex hg]
      by_cases hsf : should_fetch env sys.now ex = true
      · rw [if_pos hsf]
        by_cases hfok : env.fetchOk = true
        · rw [if_pos hfok]
          refine ⟨hex, ?_⟩
          show (dictGet (dictSet sys.storage.repositories (repoKey ({ ex with last_fetched := some sys.now } : BaseRepository).owner ({ ex with last_fetched := some sys.now } : BaseRepository).repo) _) (repoKey o r)).isSome
          exact dictGet_isSome_dictSet hsome
        · rw [if_neg hfok]
          exact ⟨hex, hsome⟩
      · rw [if_neg hsf]
        exact ⟨hex, hsome⟩
    | none =>
      have hclone : ensure_repo env sys rd o r u = clone_repo env sys rd o r u := by
        simp only [ensure_repo]
        rw [if_pos hex, hg]
      rw [hclone] at h ⊢
      have hpost := clone_repo_ok_post env sys rd o r u h
      obtain ⟨hgr, hpe⟩ := ifscrut_some_elim hpost
      obtain ⟨hst, hre⟩ := get_repo_some_elim hgr
      exact ⟨hre, by rw [hst]; rfl⟩
  · have hclone : ensure_repo env sys rd o r u = clone_repo env sys rd o r u := by
      simp only [ensure_repo]
      rw [if_neg hex]
    rw [hclone] at h ⊢
    have hpost := clone_repo_ok_post env sys rd o r u h
    obtain ⟨hgr, hpe⟩ := ifscrut_some_elim hpost
    obtain ⟨hst, hre⟩ := get_repo_some_elim hgr
    exact ⟨hre, by rw [hst]; rfl⟩

/-- A failing `ensure_repo` is a failing clone: afterwards the target
repository directory does not exist. -/
theorem ensure_repo_error_state (env : GitEnv) (sys : Sys) (rd : List String)
    (o r u : String) {e : MgrError}
    (h : (ensure_repo env sys rd o r u).fst = Except.error e) :
    pathExists (ensure_repo env sys rd o r u).snd.fs (get_repo_path rd o r) = false := by
  by_cases hex : repo_exists sys.fs rd o r = true
  · cases hg : get_repo sys.storage sys.fs rd o r with
    | some ex =>
      rw [ensure_repo_eq_existing env sys rd o r u hex hg] at h
      by_cases hsf : should_fetch env sys.now ex = true
      · rw [if_pos hsf] at h
        by_cases hfok : env.fetchOk = true
        · rw [if_pos hfok] at h
          cases h
        · rw [if_neg hfok] at h
          cases h
      · rw [if_neg hsf] at h
        cases h
    | none =>
      have hclone : ensure_repo env sys rd o r u = clone_repo env sys rd o r u := by
        simp only [ensure_repo]
        rw [if_pos hex, hg]
      rw [hclone] at h ⊢
      exact clone_repo_error_state env sys rd o r u h
  · have hclone : ensure_repo env sys rd o r u = clone_repo env sys rd o r u := by
      simp only [ensure_repo]
      rw [if_neg hex]
    rw [hclone] at h ⊢
    exact clone_repo_error_state env sys rd o r u h

theorem create_worktree_none_eq (env : GitEnv) (sys : Sys) (rd : List String)
    (o r b : String) :
    create_worktree env sys rd o r b none =
      match get_repo sys.storage sys.fs rd o r with
      | none => (Except.error MgrError.notFound, sys)
      | some _ => create_worktree_body env sys rd o r b := rfl

theorem create_worktree_some_eq (env : GitEnv) (sys : Sys) (rd : List String)
    (o r b u : String) :
    create_worktree env sys rd o r b (some u) =
      match (ensure_repo env sys rd o r u).fst with
      | Except.error e => (Except.error e, (ensure_repo env sys rd o r u).snd)
      | Except.ok _ => create_worktree_body env (ensure_repo env sys rd o r u).snd rd o r b := rfl

/-- After a successful `create_worktree_body`, the worktree directory
with its `.git` pointer exists, the metadata store returns the created
info, and the base-repository facts survive. -/
theorem create_worktree_body_ok_post (env : GitEnv) (sys : Sys)
    (rd : List String) (o r b : String) {w : WorktreeInfo}
    (h : (create_worktree_body env sys rd o r b).fst = Except.ok w) :
    worktree_exists (create_worktree_body env sys rd o r b).snd.fs rd o r b = true ∧
    storage_get_worktree (create_worktree_body env sys rd o r b).snd.storage o r b = some w ∧
    (∀ o2 r2, (storage_get_repository sys.storage o2 r2).isSome →
      (storage_get_repository (create_worktree_body env sys rd o r b).snd.storage o2 r2).isSome) ∧
    (∀ o2 r2, repo_exists sys.fs rd o2 r2 = true →
      repo_exists (create_worktree_body env sys rd o r b).snd.fs rd o2 r2 = true) := by
  cases hsc : (if pathExists sys.fs (get_worktree_path rd o r b) then
      get_worktree sys.storage sys.fs rd o r b else none) with
  | some ex =>
    rw [create_worktree_body_shortcircuit env sys rd o r b hsc] at h ⊢
    replace h : Except.ok ex = Except.ok w := h
    cases h
    obtain ⟨hg, hpe⟩ := ifscrut_some_elim hsc
    obtain ⟨hst, hwe⟩ := get_worktree_some_elim hg
    exact ⟨hwe, hst, fun o2 r2 hh => hh, fun o2 r2 hh => hh⟩
  | none =>
    by_cases hok : env.worktreeAddOk = true
    · rw [create_worktree_body_run_ok env sys rd o r b hsc hok] at h ⊢
      replace h : Except.ok ({ owner := o, repo := r, branch := b, local_path := get_worktree_path rd o r b, workspace_id := generate_workspace_id o r b, created_at := sys.now, last_used := sys.now, devpod_workspace_id := none } : WorktreeInfo) = Except.ok w := h
      cases h
      have hp1 : pathExists (mkPath (mkPath sys.fs (get_worktree_path rd o r b).dropLast) (get_worktree_path rd o r b ++ [".git"])) (get_worktree_path rd o r b) = true :=
        pathExists_mkPath_prefix (List.prefix_append _ _)
      have hp2 : pathExists (mkPath (mkPath sys.fs (get_worktree_path rd o r b).dropLast) (get_worktree_path rd o r b ++ [".git"])) (get_worktree_path rd o r b ++ [".git"]) = true :=
        pathExists_mkPath_prefix (List.prefix_refl _)
      refine ⟨?_, ?_, ?_, ?_⟩
      · show worktree_exists (mkPath (mkPath sys.fs (get_worktree_path rd o r b).dropLast) (get_worktree_path rd o r b ++ [".git"])) rd o r b = true
        simp only [worktree_exists]
        rw [hp1, hp2]
        rfl
      · show storage_get_worktree (storage_add_worktree sys.storage { owner := o, repo := r, branch := b, local_path := get_worktree_path rd o r b, workspace_id := generate_workspace_id o r b, created_at := sys.now, last_used := sys.now, devpod_workspace_id := none }) o r b = _
        unfold storage_get_worktree
        rw [show (storage_add_worktree sys.storage { owner := o, repo := r, branch := b, local_path := get_worktree_path rd o r b, workspace_id := generate_workspace_id o r b, created_at := sys.now, last_used := sys.now, devpod_workspace_id := none }).worktrees = dictSet sys.storage.worktrees (worktreeKey o r b) { owner := o, repo := r, branch := b, local_path := get_worktree_path rd o r b, workspace_id := generate_workspace_id o r b, created_at := sys.now, last_used := sys.now, devpod_workspace_id := none } from storage_add_worktree_worktrees _ _]
        exact dictGet_dictSet_self _ _ _
      · intro o2 r2 hh
        exact storage_add_worktree_repo_isSome hh
      · intro o2 r2 hh
        exact repo_exists_mkPath _ (repo_exists_mkPath _ hh)
    · rw [create_worktree_body_run_fail env sys rd o r b hsc (by simpa using hok)] at h
      replace h : (Except.error MgrError.worktreeAddFailed : Except MgrError WorktreeInfo) = Except.ok w := h
      cases h

theorem worktree_exists_pathExists {fs : List (List String)} {rd : List String}
    {o r b : String} (h : worktree_exists fs rd o r b = true) :
    pathExists fs (get_worktree_path rd o r b) = true := by
  simp only [worktree_exists, Bool.and_eq_true] at h
  exact h.1

/-- After a successful `create_worktree` (either base-resolution mode),
the worktree exists, the store returns it, and the base repository is
present. -/
theorem create_worktree_ok_post (env : GitEnv) (sysW : Sys) (rdW : List String)
    (o2 r2 b2 : String) (ru : Option String) {w : WorktreeInfo}
    (hw : (create_worktree env sysW rdW o2 r2 b2 ru).fst = Except.ok w) :
    worktree_exists (create_worktree env sysW rdW o2 r2 b2 ru).snd.fs rdW o2 r2 b2 = true ∧
    storage_get_worktree (create_worktree env sysW rdW o2 r2 b2 ru).snd.storage o2 r2 b2 = some w ∧
    (storage_get_repository (create_worktree env sysW rdW o2 r2 b2 ru).snd.storage o2 r2).isSome ∧
    repo_exists (create_worktree env sysW rdW o2 r2 b2 ru).snd.fs rdW o2 r2 = true := by
  cases ru with
  | none =>
    rw [create_worktree_none_eq] at hw ⊢
    cases hg : get_repo sysW.storage sysW.fs rdW o2 r2 with
    | none =>
      rw [hg] at hw
      replace hw : (Except.error MgrError.notFound : Except MgrError WorktreeInfo) = Except.ok w := hw
      cases hw
    | some base =>
      rw [hg] at hw
      replace hw : (create_worktree_body env sysW rdW o2 r2 b2).fst = Except.ok w := hw
      obtain ⟨hP1, hP2, hmonoS, hmonoE⟩ :=
        create_worktree_body_ok_post env sysW rdW o2 r2 b2 hw
      obtain ⟨hst, hre⟩ := get_repo_some_elim hg
      have hsome : (storage_get_repository sysW.storage o2 r2).isSome := by
        rw [hst]
        rfl
      exact ⟨hP1, hP2, hmonoS o2 r2 hsome, hmonoE o2 r2 hre⟩
  | some u2 =>
    rw [create_worktree_some_eq] at hw ⊢
    cases hens : (ensure_repo env sysW rdW o2 r2 u2).fst with
    | error e =>
      rw [hens] at hw
      replace hw : (Except.error e : Except MgrError WorktreeInfo) = Except.ok w := hw
      cases hw
    | ok base =>
      rw [hens] at hw
      replace hw : (create_worktree_body env (ensure_repo env sysW rdW o2 r2 u2).snd rdW o2 r2 b2).fst = Except.ok w := hw
      obtain ⟨hP1, hP2, hmonoS, hmonoE⟩ :=
        create_worktree_body_ok_post env _ rdW o2 r2 b2 hw
      have hpost := ensure_repo_ok_post env sysW rdW o2 r2 u2 (by rw [hens])
      exact ⟨hP1, hP2, hmonoS o2 r2 hpost.2, hmonoE o2 r2 hpost.1⟩

/-- A repeated `create_worktree` on a world where the worktree and base
repository already exist returns the stored info with no further
worktree-add or clone subprocess. -/
theorem create_worktree_second (env : GitEnv) (S1 : Sys) (rdW : List String)
    (o2 r2 b2 : String) (ru : Option String) {w : WorktreeInfo}
    (P1 : worktree_exists S1.fs rdW o2 r2 b2 = true)
    (P2 : storage_get_worktree S1.storage o2 r2 b2 = some w)
    (P3s : (storage_get_repository S1.storage o2 r2).isSome)
    (P3e : repo_exists S1.fs rdW o2 r2 = true) :
    (create_worktree env S1 rdW o2 r2 b2 ru).fst = Except.ok w ∧
    (create_worktree env S1 rdW o2 r2 b2 ru).snd.worktreeAddCalls = S1.worktreeAddCalls ∧
    (create_worktree env S1 rdW o2 r2 b2 ru).snd.cloneCalls = S1.cloneCalls := by
  have hpe : pathExists S1.fs (get_worktree_path rdW o2 r2 b2) = true :=
    worktree_exists_pathExists P1
  have hgw : get_worktree S1.storage S1.fs rdW o2 r2 b2 = some w :=
    get_worktree_of P2 P1
  have hsc2 : (if pathExists S1.fs (get_worktree_path rdW o2 r2 b2) then
      get_worktree S1.storage S1.fs rdW o2 r2 b2 else none) = some w := by
    rw [if_pos hpe, hgw]
  cases ru with
  | none =>
    rw [create_worktree_none_eq]
    obtain ⟨exR, hgr⟩ := Option.isSome_iff_exists.mp (get_repo_isSome_of P3s P3e)
    rw [hgr, create_worktree_body_shortcircuit env S1 rdW o2 r2 b2 hsc2]
    exact ⟨rfl, rfl, rfl⟩
  | some u2 =>
    rw [create_worktree_some_eq]
    obtain ⟨⟨base2, hens⟩, hfs, hwt, hcc, hwc⟩ :=
      ensure_repo_existing env S1 rdW o2 r2 u2 P3e P3s
    rw [hens]
    have hpe2 : pathExists (ensure_repo env S1 rdW o2 r2 u2).snd.fs
        (get_worktree_path rdW o2 r2 b2) = true := by
      rw [hfs]
      exact hpe
    have hwe2 : worktree_exists (ensure_repo env S1 rdW o2 r2 u2).snd.fs
        rdW o2 r2 b2 = true := by
      rw [hfs]
      exact P1
    have hst2 : storage_get_worktree (ensure_repo env S1 rdW o2 r2 u2).snd.storage
        o2 r2 b2 = some w := by
      unfold storage_get_worktree at P2 ⊢
      rw [hwt]
      exact P2
    have hsc2' : (if pathExists (ensure_repo env S1 rdW o2 r2 u2).snd.fs
        (get_worktree_path rdW o2 r2 b2) then
        get_worktree (ensure_repo env S1 rdW o2 r2 u2).snd.storage
          (ensure_repo env S1 rdW o2 r2 u2).snd.fs rdW o2 r2 b2 else none) = some w := by
      rw [if_pos hpe2, get_worktree_of hst2 hwe2]
    rw [create_worktree_body_shortcircuit env _ rdW o2 r2 b2 hsc2']
    exact ⟨rfl, hwc, hcc⟩

/-! ## Theorems for the claims -/

/-- C7: `sanitize_branch_name` is a pure total function; for every input
its output contains only characters in `[A-Za-z0-9\-_.]` and has no
leading or trailing `.` or `-`; the empty string is a legal output for
pathological inputs (empty, all-dots, all-slashes). -/
theorem sanitize_totality_and_safety :
    (∀ s : String,
      (sanitize_branch_name s).data.all isAllowedChar = true ∧
      (sanitize_branch_name s).data.head? ≠ some '.' ∧
      (sanitize_branch_name s).data.head? ≠ some '-' ∧
      (sanitize_branch_name s).data.getLast? ≠ some '.' ∧
      (sanitize_branch_name s).data.getLast? ≠ some '-') ∧
    sanitize_branch_name "" = "" ∧
    sanitize_branch_name "..." = "" ∧
    sanitize_branch_name "///" = "" := by
  refine ⟨fun s => ⟨?_, ?_, ?_, ?_, ?_⟩, by decide, by decide, by decide⟩
  · rw [List.all_eq_true]
    intro c hc
    unfold sanitize_branch_name at hc
    simp only [String.data] at hc
    have := stripChars_mem hc
    rw [List.mem_map] at this
    obtain ⟨a, _, ha⟩ := this
    by_cases h : isAllowedChar a
    · simp [h] at ha; rwa [ha] at h
    · simp [h] at ha; rw [← ha]; decide
  · intro hc
    have := stripChars_head?_not hc
    simp [isStripChar] at this
  · intro hc
    have := stripChars_head?_not hc
    simp [isStripChar] at this
  · intro hc
    have := stripChars_getLast?_not hc
    simp [isStripChar] at this
  · intro hc
    have := stripChars_getLast?_not hc
    simp [isStripChar] at this

/-- C10: branch-to-path mapping is not injective: `feature/x` and
`feature-x` are distinct branch names with equal sanitizations, so
`get_worktree_path` sends them to the same worktree directory for any
repos root and `(owner, repo)`. -/
theorem branch_path_not_injective :
    sanitize_branch_name "feature/x" = sanitize_branch_name "feature-x" ∧
    ("feature/x" : String) ≠ "feature-x" ∧
    ∀ (reposDir : List String) (owner repo : String),
      get_worktree_path reposDir owner repo "feature/x" =
        get_worktree_path reposDir owner repo "feature-x" := by
  refine ⟨by decide, by decide, fun reposDir owner repo => ?_⟩
  unfold get_worktree_path
  rw [show sanitize_branch_name "feature/x" = sanitize_branch_name "feature-x"
    from by decide]

/-- C2 (counterexample): with the branch existing locally but not
remotely and `create_remote = True`, `ensure_branch_exists` does push
the branch to the remote, contradicting the claim that push is skipped
regardless of `create_remote`. -/
theorem ensure_branch_pushes_counterexample :
    BranchAction.push ∈ ensureBranchActions "b" "origin" true false true ∧
    ensureBranchActions "b" "origin" true false true =
      [BranchAction.push, BranchAction.track] := by decide

/-- C2 (amended): when the branch exists locally but not remotely,
`ensure_branch_exists` pushes exactly when `create_remote` is true and
then sets up tracking; with `create_remote = False` it only sets up
tracking. The push gate tests only remote absence and `create_remote`,
not local absence. -/
theorem ensure_branch_local_not_remote (branch remote : String)
    (createRemote : Bool) :
    ensureBranchActions branch remote true false createRemote =
      if createRemote then [BranchAction.push, BranchAction.track]
      else [BranchAction.track] := by
  cases createRemote <;> simp [ensureBranchActions]

/-- C8 (counterexample): a failure to launch the git executable
propagates out of `remote_branch_exists` as an exception rather than
yielding `False`: only `subprocess.CalledProcessError` is caught. -/
theorem remote_branch_exists_raises_counterexample :
    remote_branch_exists SubprocessOutcome.launchFailure = Except.error () ∧
    remote_branch_exists SubprocessOutcome.launchFailure ≠ Except.ok false := by
  refine ⟨rfl, ?_⟩
  intro h
  simp [remote_branch_exists] at h

/-- C8 (amended): `remote_branch_exists` returns true iff the
`ls-remote` probe succeeds with non-empty output (the remote advertises
a head ref); a non-zero exit (including remote unreachable) yields
false without raising; but a failure to launch the git executable
raises (is not caught). -/
theorem remote_branch_exists_failure_policy :
    (∀ out, remote_branch_exists (SubprocessOutcome.success out) =
      Except.ok (out.trim != "")) ∧
    remote_branch_exists SubprocessOutcome.nonzeroExit = Except.ok false ∧
    remote_branch_exists SubprocessOutcome.launchFailure = Except.error () :=
  ⟨fun _ => rfl, rfl, rfl⟩

/-- C3 (counterexample): `_generate_workspace_id` violates the claimed
50-character budget when `owner-repo` alone exhausts it (no truncation
happens because `available_for_branch ≤ 0`), and it does not sanitize
the owner: an owner containing a space appears verbatim in the id. -/
theorem generate_workspace_id_counterexample :
    50 < (generate_workspace_id "aaaaaaaaaaaaaaaaaaaaaaaaaaaaaa"
      "bbbbbbbbbbbbbbbbbbbbbbbbbbbbbb" "c").length ∧
    generate_workspace_id "a b" "r" "x" = "a b-r-x" ∧
    sanitize_branch_name "a b" = "a_b" := by
  refine ⟨by decide, by decide, by decide⟩

/-- C3 (amended): the workspace id is `owner-repo-branch` with the owner
and repo used verbatim (not sanitized) and only the sanitized branch
ever truncated; the 50-character budget is guaranteed only when
`len(owner) + len(repo) ≤ 47` (so that `available_for_branch > 0`) —
for longer owner/repo the id exceeds 50 characters. -/
theorem generate_workspace_id_spec (owner repo branch : String) :
    (∃ k, generate_workspace_id owner repo branch =
        owner ++ "-" ++ repo ++ "-" ++
          String.mk ((sanitize_branch_name branch).data.take k)) ∧
    (owner.length + repo.length ≤ 47 →
      (generate_workspace_id owner repo branch).length ≤ 50) := by
  have hsdata : (sanitize_branch_name branch).data.length
      = (sanitize_branch_name branch).length := rfl
  by_cases hc : (0:Int) < 50 - (owner ++ "-" ++ repo).length - 1 ∧
      ((50:Int) - (owner ++ "-" ++ repo).length - 1) <
        (sanitize_branch_name branch).length
  · have hblen : (owner ++ "-" ++ repo).length = owner.length + 1 + repo.length := by
      simp [String.length_append, len_dash]
    constructor
    · refine ⟨((50:Int) - (owner ++ "-" ++ repo).length - 1).toNat, ?_⟩
      show (owner ++ "-" ++ repo) ++ "-" ++ _ = _
      rw [if_pos hc]
    · intro hlen
      show ((owner ++ "-" ++ repo) ++ "-" ++ _).length ≤ 50
      rw [if_pos hc]
      have hgoal : ((owner ++ "-" ++ repo) ++ "-" ++
          String.mk ((sanitize_branch_name branch).data.take
            ((50:Int) - (owner ++ "-" ++ repo).length - 1).toNat)).length
          = owner.length + 1 + repo.length + 1 +
            min ((50:Int) - (owner ++ "-" ++ repo).length - 1).toNat
              (sanitize_branch_name branch).data.length := by
        simp [String.length_append, len_dash]
      rw [hgoal, hblen]
      have h0 := hc.1
      have h1 := hc.2
      rw [hblen] at h0 h1
      rw [hsdata]
      omega
  · constructor
    · refine ⟨(sanitize_branch_name branch).data.length, ?_⟩
      show (owner ++ "-" ++ repo) ++ "-" ++ _ = _
      rw [if_neg hc, List.take_length]
    · intro hlen
      show ((owner ++ "-" ++ repo) ++ "-" ++ _).length ≤ 50
      rw [if_neg hc]
      have hblen : (owner ++ "-" ++ repo).length = owner.length + 1 + repo.length := by
        simp [String.length_append, len_dash]
      have hgoal : ((owner ++ "-" ++ repo) ++ "-" ++
          sanitize_branch_name branch).length
          = owner.length + 1 + repo.length + 1 +
            (sanitize_branch_name branch).length := by
        simp [String.length_append, len_dash]
      rw [hgoal]
      push_neg at hc
      rw [hblen] at hc
      omega

/-- Witness for `generate_workspace_id_spec` at a concrete input. -/
theorem generate_workspace_id_spec_witness :
    ("blooop" : String).length + ("bencher" : String).length ≤ 47 ∧
    (generate_workspace_id "blooop" "bencher" "main").length ≤ 50 :=
  ⟨by decide, (generate_workspace_id_spec "blooop" "bencher" "main").2 (by decide)⟩

/-- C1: the relative paths written by `_fix_worktree_paths` round-trip
for both bare and non-bare base repositories: resolving the rewritten
`.git` pointer against the worktree directory
`<base>/.worktrees/<sanitized branch>` lands exactly on the
worktree-metadata directory, and resolving the rewritten reverse
`gitdir` pointer against the metadata directory lands exactly on the
worktree directory. `name` is the worktree-metadata directory name
(`Path(abs_gitdir).name`), which is a plain directory name. -/
theorem fix_worktree_paths_roundtrip (base : List String) (name branch : String)
    (h1 : name ≠ "..") (h2 : name ≠ ".") :
    resolvePath (worktreeDir base (sanitize_branch_name branch))
        (relGitdirBare name) = metadataDirBare base name ∧
    resolvePath (metadataDirBare base name)
        (relWorktreeBare (sanitize_branch_name branch)) =
      worktreeDir base (sanitize_branch_name branch) ∧
    resolvePath (worktreeDir base (sanitize_branch_name branch))
        (relGitdirNonBare name) = metadataDirNonBare base name ∧
    resolvePath (metadataDirNonBare base name)
        (relWorktreeNonBare (sanitize_branch_name branch)) =
      worktreeDir base (sanitize_branch_name branch) := by
  obtain ⟨hb1, hb2⟩ := sanitize_ne_dots branch
  refine ⟨?_, ?_, ?_, ?_⟩
  · show resolvePath (base ++ [_, _]) _ = _
    rw [show relGitdirBare name = ".." :: ".." :: ["worktrees", name] from rfl,
      resolve_up2]
    unfold resolvePath
    rw [List.foldl_cons, List.foldl_cons, List.foldl_nil]
    simp [resolveSeg, h1, h2, metadataDirBare]
  · show resolvePath (base ++ [_, _]) _ = _
    rw [show relWorktreeBare (sanitize_branch_name branch)
        = ".." :: ".." :: [".worktrees", sanitize_branch_name branch] from rfl,
      resolve_up2]
    unfold resolvePath
    rw [List.foldl_cons, List.foldl_cons, List.foldl_nil]
    simp [resolveSeg, hb1, hb2, worktreeDir]
  · show resolvePath (base ++ [_, _]) _ = _
    rw [show relGitdirNonBare name
        = ".." :: ".." :: [".git", "worktrees", name] from rfl, resolve_up2]
    unfold resolvePath
    rw [List.foldl_cons, List.foldl_cons, List.foldl_cons, List.foldl_nil]
    simp [resolveSeg, h1, h2, metadataDirNonBare]
  · show resolvePath (base ++ [_, _, _]) _ = _
    rw [show relWorktreeNonBare (sanitize_branch_name branch)
        = ".." :: ".." :: ".." :: [".worktrees", sanitize_branch_name branch]
        from rfl, resolve_up3]
    unfold resolvePath
    rw [List.foldl_cons, List.foldl_cons, List.foldl_nil]
    simp [resolveSeg, hb1, hb2, worktreeDir]

/-- C5 (counterexample): bidirectional consistency is not preserved by
`add_worktree` in general: the composite string keys `owner/repo/branch`
collide for slash-containing names, so adding a worktree for
`("a", "b/c", "d")` silently overwrites the stored worktree of
`("a/b", "c", "d")` (same key `a/b/c/d`) while the BaseRepository entry
for `("a/b", "c")` keeps `d` in its `worktrees` list even though no
WorktreeInfo for `("a/b", "c")` remains. -/
theorem storage_consistency_counterexample :
    ConsistentLists collidingStore ∧
    ¬ ConsistentLists (storage_add_worktree collidingStore collidingWorktree) := by
  constructor
  · unfold ConsistentLists
    decide
  · intro h
    have := h ("a/b/c",
      { owner := "a/b", repo := "c", remote_url := "u", local_path := ["p"],
        default_branch := "main", last_fetched := none, worktrees := ["d"] })
      (by decide)
    have hmem := this.2.1 "d" (by decide)
    revert hmem
    decide

theorem repo_exists_of_no_path {fs : List (List String)} {rd : List String}
    {o r : String} (h : pathExists fs (get_repo_path rd o r) = false) :
    repo_exists fs rd o r = false := by
  simp only [repo_exists]
  rw [if_pos (by simp [h])]

theorem worktree_exists_of_no_path {fs : List (List String)} {rd : List String}
    {o r b : String}
    (h : pathExists fs (get_worktree_path rd o r b) = false) :
    worktree_exists fs rd o r b = false := by
  simp only [worktree_exists]
  rw [h]
  rfl

/-- C4: idempotence of `clone_repo` and `create_worktree`. After a
successful `clone_repo`, calling it again with the same
`(owner, repo, url)` returns the same metadata (hence the same local
path) and leaves the world untouched — in particular no second clone
subprocess runs. After a successful `create_worktree`, calling it again
with the same `(owner, repo, branch)` returns the same stored
WorktreeInfo and runs no further `git worktree add` (and no clone). -/
theorem clone_and_create_idempotent (env : GitEnv) (sysC sysW : Sys)
    (rdC rdW : List String) (o r u : String) (b : BaseRepository)
    (o2 r2 b2 : String) (ru : Option String) (w : WorktreeInfo)
    (hc : (clone_repo env sysC rdC o r u).fst = Except.ok b)
    (hw : (create_worktree env sysW rdW o2 r2 b2 ru).fst = Except.ok w) :
    clone_repo env (clone_repo env sysC rdC o r u).snd rdC o r u
      = (Except.ok b, (clone_repo env sysC rdC o r u).snd) ∧
    (create_worktree env (create_worktree env sysW rdW o2 r2 b2 ru).snd rdW o2 r2 b2 ru).fst
      = Except.ok w ∧
    (create_worktree env (create_worktree env sysW rdW o2 r2 b2 ru).snd rdW o2 r2 b2 ru).snd.worktreeAddCalls
      = (create_worktree env sysW rdW o2 r2 b2 ru).snd.worktreeAddCalls ∧
    (create_worktree env (create_worktree env sysW rdW o2 r2 b2 ru).snd rdW o2 r2 b2 ru).snd.cloneCalls
      = (create_worktree env sysW rdW o2 r2 b2 ru).snd.cloneCalls := by
  obtain ⟨P1, P2, P3s, P3e⟩ := create_worktree_ok_post env sysW rdW o2 r2 b2 ru hw
  obtain ⟨h1, h2, h3⟩ := create_worktree_second env _ rdW o2 r2 b2 ru P1 P2 P3s P3e
  exact ⟨clone_repo_shortcircuit env _ rdC o r u (clone_repo_ok_post env sysC rdC o r u hc),
    h1, h2, h3⟩

/-- Witness for `clone_and_create_idempotent` at concrete inputs. -/
theorem clone_and_create_idempotent_witness :
    clone_repo okEnv (clone_repo okEnv emptySys ["repos"] "o" "r" "u").snd ["repos"] "o" "r" "u"
      = (Except.ok idemRepo, (clone_repo okEnv emptySys ["repos"] "o" "r" "u").snd) ∧
    (create_worktree okEnv (create_worktree okEnv repoReadySys ["repos"] "o" "r" "b" none).snd ["repos"] "o" "r" "b" none).fst
      = Except.ok idemWt := by
  obtain ⟨h1, h2, -, -⟩ := clone_and_create_idempotent okEnv emptySys repoReadySys
    ["repos"] ["repos"] "o" "r" "u" idemRepo "o" "r" "b" none idemWt rfl rfl
  exact ⟨h1, h2⟩

/-- C6: atomicity of failed creation. When the clone subprocess fails,
`clone_repo` removes the partially materialized target directory before
raising, so the path no longer exists and `repo_exists` is false; when
`create_worktree` fails for any reason other than the repository-not-
found precondition (i.e. a failing clone or a failing `worktree add`),
the worktree directory does not exist afterwards and `worktree_exists`
is false. -/
theorem failed_creation_cleanup (env : GitEnv) (sysC sysW : Sys)
    (rdC rdW : List String) (o r u : String) (e : MgrError)
    (o2 r2 b2 : String) (ru : Option String) (e2 : MgrError)
    (hc : (clone_repo env sysC rdC o r u).fst = Except.error e)
    (hw : (create_worktree env sysW rdW o2 r2 b2 ru).fst = Except.error e2)
    (hne : e2 ≠ MgrError.notFound) :
    (pathExists (clone_repo env sysC rdC o r u).snd.fs (get_repo_path rdC o r) = false ∧
     repo_exists (clone_repo env sysC rdC o r u).snd.fs rdC o r = false) ∧
    (pathExists (create_worktree env sysW rdW o2 r2 b2 ru).snd.fs (get_worktree_path rdW o2 r2 b2) = false ∧
     worktree_exists (create_worktree env sysW rdW o2 r2 b2 ru).snd.fs rdW o2 r2 b2 = false) := by
  have h1 := clone_repo_error_state env sysC rdC o r u hc
  refine ⟨⟨h1, repo_exists_of_no_path h1⟩, ?_⟩
  cases ru with
  | none =>
    rw [create_worktree_none_eq] at hw ⊢
    cases hg : get_repo sysW.storage sysW.fs rdW o2 r2 with
    | none =>
      rw [hg] at hw
      replace hw : (Except.error MgrError.notFound : Except MgrError WorktreeInfo) = Except.error e2 := hw
      injection hw with hh
      exact absurd hh.symm hne
    | some base =>
      rw [hg] at hw
      replace hw : (create_worktree_body env sysW rdW o2 r2 b2).fst = Except.error e2 := hw
      have hbody := create_worktree_body_error_state env sysW rdW o2 r2 b2 hw
      exact ⟨hbody, worktree_exists_of_no_path hbody⟩
  | some u2 =>
    rw [create_worktree_some_eq] at hw ⊢
    cases hens : (ensure_repo env sysW rdW o2 r2 u2).fst with
    | error eE =>
      rw [hens] at hw
      have herr : pathExists (ensure_repo env sysW rdW o2 r2 u2).snd.fs
          (get_repo_path rdW o2 r2) = false :=
        ensure_repo_error_state env sysW rdW o2 r2 u2 (by rw [hens])
      have hwp : pathExists (ensure_repo env sysW rdW o2 r2 u2).snd.fs
          (get_worktree_path rdW o2 r2 b2) = false := by
        rw [show get_worktree_path rdW o2 r2 b2
          = get_repo_path rdW o2 r2 ++ [".worktrees", sanitize_branch_name b2] from rfl]
        exact pathExists_false_ext _ herr
      exact ⟨hwp, worktree_exists_of_no_path hwp⟩
    | ok base =>
      rw [hens] at hw
      replace hw : (create_worktree_body env (ensure_repo env sysW rdW o2 r2 u2).snd rdW o2 r2 b2).fst = Except.error e2 := hw
      have hbody := create_worktree_body_error_state env _ rdW o2 r2 b2 hw
      exact ⟨hbody, worktree_exists_of_no_path hbody⟩

/-- Witness for `failed_creation_cleanup` at concrete inputs. -/
theorem failed_creation_cleanup_witness :
    pathExists (clone_repo failEnv emptySys ["repos"] "o" "r" "u").snd.fs
      (get_repo_path ["repos"] "o" "r") = false ∧
    worktree_exists (create_worktree failEnv repoReadySys ["repos"] "o" "r" "b" none).snd.fs
      ["repos"] "o" "r" "b" = false := by
  obtain ⟨⟨hp, -⟩, ⟨-, hwx⟩⟩ := failed_creation_cleanup failEnv emptySys repoReadySys
    ["repos"] ["repos"] "o" "r" "u" MgrError.cloneFailed "o" "r" "b" none
    MgrError.worktreeAddFailed rfl rfl (by decide)
  exact ⟨hp, hwx⟩

/-- C5 (amended): for every sequence of `add_worktree` / `remove_worktree`
calls whose owner and repo names contain no `/` (so the composite string
keys cannot collide), starting from a well-formed consistent store with
slash-free names, every BaseRepository entry's `worktrees` list remains
exactly (as a duplicate-free list, up to order) the set of branch names
with a currently-stored WorktreeInfo for that `(owner, repo)`; each
operation re-establishes the invariant synchronously. -/
theorem storage_consistency_preserved (s : MetadataStorage) (ops : List StoreOp)
    (hg : GoodStore s) (hops : ∀ op ∈ ops, StoreOpSlashFree op) :
    ConsistentLists (ops.foldl applyStoreOp s) := by
  suffices h : ∀ t, GoodStore t → (∀ op ∈ ops, StoreOpSlashFree op) →
      GoodStore (ops.foldl applyStoreOp t) from (h s hg hops).2.2
  clear hg hops
  induction ops with
  | nil => exact fun t hg _ => hg
  | cons op rest ih =>
    intro t hg hops
    rw [List.foldl_cons]
    have hop := hops op (List.mem_cons_self _ _)
    refine ih _ ?_ (fun op2 hop2 => hops op2 (List.mem_cons_of_mem _ hop2))
    cases op with
    | addW w => exact storage_add_worktree_good hg hop.1 hop.2
    | removeW o r b => exact storage_remove_worktree_good hg hop.1 hop.2

/-- Witness for `storage_consistency_preserved` at a concrete input. -/
theorem storage_consistency_preserved_witness :
    ConsistentLists ([StoreOp.addW
      { owner := "o", repo := "r", branch := "b", local_path := ["p"],
        workspace_id := "i", created_at := 0, last_used := 0,
        devpod_workspace_id := none }].foldl applyStoreOp
      { repositories := [], worktrees := [] }) := by
  refine storage_consistency_preserved _ _ ⟨?_, ?_, ?_⟩ ?_
  · refine ⟨?_, ?_, ?_, ?_⟩ <;> simp
  · refine ⟨?_, ?_⟩ <;> simp
  · intro p hp
    simp at hp
  · intro op hop
    rw [List.mem_singleton] at hop
    subst hop
    refine ⟨?_, ?_⟩ <;> decide

/-- C9: under the default 30-day threshold of `prune_stale_worktrees`, a
worktree whose `last_used` is 31 days before now is pruned (removed from
the store and included in the returned list) while one whose `last_used`
is 29 days before now is kept. -/
theorem prune_stale_boundary (sys : Sys) (reposDir : List String)
    (w31 w29 : WorktreeInfo)
    (hstore : sys.storage.worktrees =
      [(worktreeKey w31.owner w31.repo w31.branch, w31),
       (worktreeKey w29.owner w29.repo w29.branch, w29)])
    (hkeys : worktreeKey w31.owner w31.repo w31.branch ≠
      worktreeKey w29.owner w29.repo w29.branch)
    (h31 : w31.last_used = sys.now - 31 * 86400)
    (h29 : w29.last_used = sys.now - 29 * 86400) :
    (prune_stale_worktrees sys reposDir none).fst = [w31] ∧
    (prune_stale_worktrees sys reposDir none).snd.storage.worktrees =
      [(worktreeKey w29.owner w29.repo w29.branch, w29)] := by
  have hcut31 : w31.last_used < sys.now - 30 * 86400 := by rw [h31]; omega
  have hcut29 : ¬(w29.last_used < sys.now - 30 * 86400) := by rw [h29]; omega
  have hlist : storage_list_all_worktrees sys.storage = [w31, w29] := by
    unfold storage_list_all_worktrees
    rw [hstore]
    rfl
  have hst1 : (wm_remove_worktree sys reposDir w31.owner w31.repo
      w31.branch).storage.worktrees =
      [(worktreeKey w29.owner w29.repo w29.branch, w29)] := by
    rw [wm_remove_worktree_storage, storage_remove_worktree_worktrees, hstore]
    simp [dictDel, bne_iff_ne, Ne.symm hkeys]
  have hmain : prune_stale_worktrees sys reposDir none =
      ([w31], wm_remove_worktree sys reposDir w31.owner w31.repo w31.branch) := by
    show pruneLoop sys reposDir (sys.now - 30 * 86400)
      (storage_list_all_worktrees sys.storage) = _
    rw [hlist, pruneLoop_cons, if_pos hcut31, pruneLoop_cons, if_neg hcut29,
      pruneLoop_nil]
  rw [hmain]
  exact ⟨rfl, hst1⟩

/-- Witness for `prune_stale_boundary` at a concrete input. -/
theorem prune_stale_boundary_witness :
    (prune_stale_worktrees pruneSys ["repos"] none).fst = [staleWorktree] :=
  (prune_stale_boundary pruneSys ["repos"] staleWorktree freshWorktree
    (by decide) (by decide) (by decide) (by decide)).1

/-- Witness for `fix_worktree_paths_roundtrip` at a concrete input. -/
theorem fix_worktree_paths_roundtrip_witness :
    resolvePath (worktreeDir ["repos", "o", "r"]
        (sanitize_branch_name "feature/x")) (relGitdirBare "feature-x") =
      metadataDirBare ["repos", "o", "r"] "feature-x" :=
  (fix_worktree_paths_roundtrip ["repos", "o", "r"] "feature-x" "feature/x"
    (by decide) (by decide)).1

end Devlaunch
